import Mathlib

/-!
A shallow embedding of `log_viewer.go` (log-viewer)

The program reads a log file line by line, parses every line into four fields,
keeps the entries whose severity is selected by the filter letters, and prints
the kept entries with aligned, coloured columns.

Conventions of the embedding

* A Go `string` is a sequence of bytes: `GoString := List UInt8`; `len` is `List.length`.
* A run-time panic of the Go program is the value `none` of an `Option`.
* A Go `error` result is the `Except.error` case, carrying the error text.
* Standard output is the list of the texts written by the successive `fmt.Printf` calls.
* The two package-level counters and standard output form the explicit state `State`.
* The functions of package `color` are not part of the repository; they are the
  fields of a `Palette` that every printing function takes as a parameter.
-/

namespace LogViewer

/-- A Go string: a finite sequence of bytes. -/
abbrev GoString := List UInt8

/-- The bytes (UTF-8) of a string literal of the source. -/
def str (s : String) : GoString := s.toUTF8.data.toList

/-! ## Package `strings` (the functions the program calls) -/

/-- Go `strings.Index(s, substr)`: position of the first occurrence of `substr` in `s`;
`none` is Go's `-1`. -/
def stringsIndex : GoString → GoString → Option Nat
  | [], substr => if substr.isPrefixOf [] then some 0 else none
  | c :: t, substr =>
    if substr.isPrefixOf (c :: t) then some 0 else (stringsIndex t substr).map (· + 1)

/-- Go `strings.Contains(s, substr)`, which is `Index(s, substr) >= 0`. -/
def stringsContains (s substr : GoString) : Bool := (stringsIndex s substr).isSome

/-- The loop of Go `strings.genSplit` for a non-empty separator: cut at the first
occurrence of `sep`, continue after it. The loop runs at most `n` times. -/
def genSplit (s sep : GoString) : Nat → List GoString
  | 0 => [s]
  | n + 1 =>
    match stringsIndex s sep with
    | none => [s]
    | some m => s.take m :: genSplit (s.drop (m + sep.length)) sep n

/-- Go `strings.Split(s, sep)` for a non-empty `sep` (the program only passes `"]["`).
Go bounds the loop by the number of occurrences of `sep`, which is at most `len(s)`, and
leaves it as soon as `Index` finds nothing. -/
def stringsSplit (s sep : GoString) : List GoString := genSplit s sep s.length

/-- Go `strings.Repeat(s, count)`; it panics on a negative `count`. -/
def stringsRepeat (s : GoString) (count : Int) : Option GoString :=
  if count < 0 then none else some (List.replicate count.toNat s).flatten

/-- The code points for which Go `unicode.IsSpace` holds. -/
def spaceRunes : List Nat :=
  [0x09, 0x0A, 0x0B, 0x0C, 0x0D, 0x20, 0x85, 0xA0, 0x1680,
   0x2000, 0x2001, 0x2002, 0x2003, 0x2004, 0x2005, 0x2006, 0x2007, 0x2008, 0x2009, 0x200A,
   0x2028, 0x2029, 0x202F, 0x205F, 0x3000]

/-- The UTF-8 encodings of the white-space code points. Go decodes a rune only from its
shortest encoding, so a white-space rune starts (ends) a string exactly when one of these
byte sequences is a prefix (suffix) of it. -/
def spaceEncodings : List GoString :=
  spaceRunes.map (fun r => str (String.singleton (Char.ofNat r)))

/-- Go `strings.TrimLeftFunc(s, unicode.IsSpace)`: drop leading white-space runes. -/
def trimLeftSpace : Nat → GoString → GoString
  | 0, s => s
  | n + 1, s =>
    match spaceEncodings.find? (fun w => w.isPrefixOf s) with
    | none => s
    | some w => trimLeftSpace n (s.drop w.length)

/-- Go `strings.TrimRightFunc(s, unicode.IsSpace)`: drop trailing white-space runes. -/
def trimRightSpace : Nat → GoString → GoString
  | 0, s => s
  | n + 1, s =>
    match spaceEncodings.find? (fun w => w.isSuffixOf s) with
    | none => s
    | some w => trimRightSpace n (s.take (s.length - w.length))

/-- Go `strings.TrimSpace(s)`: `s` without its leading and trailing white space, as
defined by Unicode. Each step removes at least one byte, so `len(s)` steps suffice. -/
def stringsTrimSpace (s : GoString) : GoString :=
  let t := trimLeftSpace s.length s
  trimRightSpace t.length t

/-! ## The program -/

/-- Constant `debugPrefix`. -/
def debugPrefix : GoString := str "Debug"
/-- Constant `infoPrefix`. -/
def infoPrefix : GoString := str "Info"
/-- Constant `warningPrefix`. -/
def warningPrefix : GoString := str "Warning"
/-- Constant `errorPrefix`. -/
def errorPrefix : GoString := str "Error"
/-- Constant `fatalPrefix`. -/
def fatalPrefix : GoString := str "Fatal"

/-- Constant `newLine`. -/
def newLine : GoString := str "\n"

/-- Type `Log`. The field `prefix` of the source is `prefix_` here. -/
structure Log where
  datetime : GoString
  prefix_ : GoString
  callerFunction : GoString
  message : GoString
  deriving DecidableEq, Repr

-- Equality of `Except` results is decidable (used to evaluate examples).
deriving instance DecidableEq for Except

/-- The package-level variables `longestCallerFunctionLength` and `longestPrefixLength`
(Go `int`), and what has been written to standard output, one element for each
`fmt.Printf` call. -/
structure State where
  longestCallerFunctionLength : Int
  longestPrefixLength : Int
  stdout : List GoString
  deriving DecidableEq, Repr

/-- A Go slice expression `s[low:high]` on a string: a run-time panic (`none`) unless
`0 <= low <= high <= len(s)`, else the bytes from index `low` up to `high`. -/
def sliceString (s : GoString) (low high : Int) : Option GoString :=
  if 0 ≤ low ∧ low ≤ high ∧ high ≤ s.length then
    some ((s.take high.toNat).drop low.toNat)
  else none

/-- Function `parseLog`. The result is `none` when the slice expression
`line[1:len(line)-1]` panics; otherwise it is the `*Log` or the error. -/
def parseLog (line : GoString) : Option (Except GoString Log) :=
  match sliceString line 1 (line.length - 1) with
  | none => none
  | some inner =>
    let segments := stringsSplit inner (str "][")
    if h : segments.length ≠ 4 then
      some (.error (str "parsing log failed"))
    else
      some (.ok
        { datetime := segments[0]
          prefix_ := segments[1]
          callerFunction := segments[2]
          message := segments[3] })

/-- Package `color` (github.com/ermanimer/color) is outside the repository: its five
functions used by the program are parameters of the embedding. -/
structure Palette where
  Cyan : GoString → GoString
  Green : GoString → GoString
  Yellow : GoString → GoString
  Red : GoString → GoString
  Magenta : GoString → GoString

/-- Function `updateLongestCallerFunctionLength`. -/
def updateLongestCallerFunctionLength (callerFunction : GoString) (st : State) : State :=
  let callerFunctionLength : Int := callerFunction.length
  if callerFunctionLength > st.longestCallerFunctionLength then
    { st with longestCallerFunctionLength := callerFunctionLength }
  else st

/-- Function `updateLongestPrefixLength`. -/
def updateLongestPrefixLength (pfx : GoString) (st : State) : State :=
  let prefixLength : Int := pfx.length
  if prefixLength > st.longestPrefixLength then
    { st with longestPrefixLength := prefixLength }
  else st

/-- Function `setPrefixLength`; `none` when `strings.Repeat` panics. -/
def setPrefixLength (st : State) (log : Log) : Option Log :=
  match stringsRepeat (str " ") (st.longestPrefixLength - log.prefix_.length) with
  | none => none
  | some padding => some { log with prefix_ := log.prefix_ ++ padding }

/-- Function `setCallerFunctionLength`; `none` when `strings.Repeat` panics. -/
def setCallerFunctionLength (st : State) (log : Log) : Option Log :=
  match stringsRepeat (str " ") (st.longestCallerFunctionLength - log.callerFunction.length) with
  | none => none
  | some padding => some { log with callerFunction := log.callerFunction ++ padding }

/-- Function `setPrefixColor`: a `switch` on the trimmed prefix, without a default case. -/
def setPrefixColor (pal : Palette) (log : Log) : Log :=
  let t := stringsTrimSpace log.prefix_
  if t = debugPrefix then { log with prefix_ := pal.Cyan log.prefix_ }
  else if t = infoPrefix then { log with prefix_ := pal.Green log.prefix_ }
  else if t = warningPrefix then { log with prefix_ := pal.Yellow log.prefix_ }
  else if t = errorPrefix then { log with prefix_ := pal.Red log.prefix_ }
  else if t = fatalPrefix then { log with prefix_ := pal.Red log.prefix_ }
  else log

/-- Function `setCallerFunctionColor`. -/
def setCallerFunctionColor (pal : Palette) (log : Log) : Log :=
  { log with callerFunction := pal.Magenta log.callerFunction }

/-- Function `viewLog`: the four setters in order, then one `fmt.Printf` of
`"[%v][%v][%v]%v%v"`; `none` when a setter panics. -/
def viewLog (pal : Palette) (log : Log) (st : State) : Option State :=
  match setPrefixLength st log with
  | none => none
  | some log1 =>
    match setCallerFunctionLength st log1 with
    | none => none
    | some log2 =>
      let log3 := setPrefixColor pal log2
      let log4 := setCallerFunctionColor pal log3
      some { st with stdout := st.stdout ++
        [str "[" ++ log4.datetime ++ str "][" ++ log4.prefix_ ++ str "][" ++
          log4.callerFunction ++ str "]" ++ log4.message ++ newLine] }

/-- Function `printError`: one `fmt.Printf` of `"log_viewer: %s%s"`. -/
def printError (message : GoString) (st : State) : State :=
  { st with stdout := st.stdout ++ [str "log_viewer: " ++ message ++ newLine] }

/-- The block `//filter log` of `viewLogs`: the final value of the local variable
`viewLog` after the five `if` statements. -/
def filterLog (prefixes : GoString) (log : Log) : Bool :=
  let viewLog := false
  let viewLog :=
    if log.prefix_ = debugPrefix && stringsContains prefixes (str "d") then true else viewLog
  let viewLog :=
    if log.prefix_ = infoPrefix && stringsContains prefixes (str "i") then true else viewLog
  let viewLog :=
    if log.prefix_ = warningPrefix && stringsContains prefixes (str "w") then true else viewLog
  let viewLog :=
    if log.prefix_ = errorPrefix && stringsContains prefixes (str "e") then true else viewLog
  let viewLog :=
    if log.prefix_ = fatalPrefix && stringsContains prefixes (str "f") then true else viewLog
  viewLog

/-- The `for` loop of `viewLogs` that reads the file. `lines` are the texts that the
remaining calls of `reader.ReadLine` return before `io.EOF`, `logs` is the slice built
so far. Results: `none` for a panic in `parseLog`; `Except.error st` when a line fails
to parse, `st` being the state after `printError`; `Except.ok (st, logs)` when
`io.EOF` ends the loop. -/
def scanLoop (prefixes : GoString) :
    List GoString → State → List Log → Option (Except State (State × List Log))
  | [], st, logs => some (.ok (st, logs))
  | line :: rest, st, logs =>
    match parseLog line with
    | none => none
    | some (.error err) => some (.error (printError err st))
    | some (.ok log) =>
      if filterLog prefixes log then
        scanLoop prefixes rest
          (updateLongestPrefixLength log.prefix_
            (updateLongestCallerFunctionLength log.callerFunction st))
          (logs ++ [log])
      else scanLoop prefixes rest st logs

/-- The loop `for _, log := range logs { viewLog(&log) }`. -/
def viewLoop (pal : Palette) : List Log → State → Option State
  | [], st => some st
  | log :: rest, st =>
    match viewLog pal log st with
    | none => none
    | some st1 => viewLoop pal rest st1

/-- An opened log file: the texts that successive `reader.ReadLine` calls return until
`io.EOF` (the lines of the file without their line ends; a line longer than the buffer
of the reader arrives in pieces, and the program treats each piece as a line), and
whether `logFile.Close()` will return an error. -/
structure File where
  lines : List GoString
  closeFails : Bool

/-- The size of the buffer of `bufio.NewReader` (Go `defaultBufSize`). -/
def defaultBufSize : Nat := 4096

/-- The end of `bufio.Reader.ReadLine`: `line` is the text before a `'\n'`; a `'\r'` right
before the `'\n'` is dropped with it. -/
def dropCR (line : GoString) : GoString :=
  if line.getLast? = some 13 then line.dropLast else line

/-- One call of `reader.ReadLine()` when `data` is what the reader has not returned yet
and no read fails: `none` is `io.EOF`, else the returned text and what is left unread.
The reader looks for `'\n'` in the first `defaultBufSize` bytes. When found, the text
before it is returned without the line end. When the buffer is full without one, the
buffer is returned as it is (`isPrefix`, which the program discards), a last `'\r'` being
left for the next call. Otherwise the whole rest of the file is returned. -/
def readLine (data : GoString) : Option (GoString × GoString) :=
  if data = [] then none
  else
    let buf := data.take defaultBufSize
    let head := buf.takeWhile (fun b => b != 10)
    if head.length < buf.length then
      some (dropCR head, data.drop (head.length + 1))
    else if defaultBufSize ≤ data.length then
      if head.getLast? = some 13 then some (head.dropLast, data.drop (head.length - 1))
      else some (head, data.drop head.length)
    else some (head, [])

/-- The texts that the successive `reader.ReadLine()` calls of `viewLogs` return before
`io.EOF`; every call consumes at least one byte, so `n = len(data)` calls suffice. -/
def readLines : Nat → GoString → List GoString
  | 0, _ => []
  | n + 1, data =>
    match readLine data with
    | none => []
    | some (line, rest) => line :: readLines n rest

/-- The opened file with the given content. -/
def openedFile (content : GoString) (closeFails : Bool) : File :=
  { lines := readLines content.length content, closeFails := closeFails }

/-- The deferred function of `viewLogs`: close the file, report a failure. -/
def deferredClose (logFile : File) (st : State) : State :=
  if logFile.closeFails then printError (str "closing log file failed") st else st

/-- Function `viewLogs`. `openFile` is `os.Open`: `none` when it returns an error.
The result is `none` when the run panics, else the state at the return. -/
def viewLogs (pal : Palette) (openFile : GoString → Option File)
    (filename prefixes : GoString) (st : State) : Option State :=
  match openFile filename with
  | none => some (printError (str "opening log file failed") st)
  | some logFile =>
    let st0 := { st with longestPrefixLength := 0, longestCallerFunctionLength := 0 }
    match scanLoop prefixes logFile.lines st0 [] with
    | none => none
    | some (.error st1) => some (deferredClose logFile st1)
    | some (.ok (st1, logs)) =>
      match viewLoop pal logs st1 with
      | none => none
      | some st2 => some (deferredClose logFile st2)

/-- ANSI escape sequences around a text: a concrete palette for evaluating examples. -/
def ansi : Palette where
  Cyan s := str "\x1b[36m" ++ s ++ str "\x1b[0m"
  Green s := str "\x1b[32m" ++ s ++ str "\x1b[0m"
  Yellow s := str "\x1b[33m" ++ s ++ str "\x1b[0m"
  Red s := str "\x1b[31m" ++ s ++ str "\x1b[0m"
  Magenta s := str "\x1b[35m" ++ s ++ str "\x1b[0m"

/-! ## Facts about the `strings` functions -/

theorem str_sep : str "][" = [93, 91] := by decide

theorem stringsIndex_take_drop (sep : GoString) :
    ∀ (s : GoString) (m : Nat), stringsIndex s sep = some m →
      s.take m ++ sep ++ s.drop (m + sep.length) = s := by
  intro s
  induction s with
  | nil =>
    intro m h
    simp only [stringsIndex] at h
    split at h
    · rename_i hp
      cases sep with
      | nil => simp
      | cons a t => simp at hp
    · simp at h
  | cons c t ih =>
    intro m h
    simp only [stringsIndex] at h
    split at h
    · rename_i hp
      obtain ⟨r, hr⟩ := List.isPrefixOf_iff_prefix.mp hp
      cases h
      simp only [List.take_zero, List.nil_append, Nat.zero_add]
      rw [← hr]
      simp
    · cases hi : stringsIndex t sep with
      | none => simp [hi] at h
      | some k =>
        simp only [hi, Option.map_some', Option.some.injEq] at h
        subst h
        have := ih k hi
        simp only [List.take_succ_cons, List.cons_append, List.cons.injEq, true_and]
        rw [show k + 1 + sep.length = (k + sep.length) + 1 by omega, List.drop_succ_cons]
        simpa using this

theorem genSplit_intercalate (sep : GoString) :
    ∀ (n : Nat) (s : GoString), List.intercalate sep (genSplit s sep n) = s := by
  intro n
  induction n with
  | zero => intro s; simp [genSplit, List.intercalate]
  | succ n ih =>
    intro s
    simp only [genSplit]
    cases hi : stringsIndex s sep with
    | none => simp [List.intercalate]
    | some m =>
      simp only
      have h1 := ih (s.drop (m + sep.length))
      have h2 := stringsIndex_take_drop sep s m hi
      cases hg : genSplit (List.drop (m + sep.length) s) sep n with
      | nil => 
        cases n <;> simp [genSplit] at hg
        split at hg <;> simp at hg
      | cons x xs =>
        rw [hg] at h1
        simp only [List.intercalate, List.intersperse, List.flatten] at h1 ⊢
        rw [← List.append_assoc, h1]
        simpa using h2

theorem stringsIndex_none_iff (sub : GoString) :
    ∀ s : GoString, stringsIndex s sub = none ↔ ¬ sub <:+: s := by
  intro s
  induction s with
  | nil =>
    cases sub with
    | nil => simp [stringsIndex]
    | cons a t => simp [stringsIndex]
  | cons c t ih =>
    simp only [stringsIndex, List.infix_cons_iff, not_or]
    by_cases hp : sub.isPrefixOf (c :: t) = true
    · have := List.isPrefixOf_iff_prefix.mp hp
      simp [hp, this]
    · have hn : ¬ sub <+: c :: t := fun h => hp (List.isPrefixOf_iff_prefix.mpr h)
      simp [hp, hn, ih]

theorem stringsContains_iff_substring (s sub : GoString) :
    stringsContains s sub = true ↔ sub <:+: s := by
  have := stringsIndex_none_iff sub s
  unfold stringsContains
  cases h : stringsIndex s sub with
  | none => simpa [h] using this
  | some m =>
    simp only [Option.isSome_some, true_iff]
    by_contra hc
    rw [h] at this
    exact absurd (this.mpr hc) (by simp)

theorem not_contains_of_not_substring {s sub : GoString} (h : ¬ sub <:+: s) :
    stringsContains s sub = false := by
  cases hc : stringsContains s sub with
  | false => rfl
  | true => exact absurd ((stringsContains_iff_substring s sub).mp hc) h

theorem stringsContains_byte (s : GoString) (c : UInt8) :
    stringsContains s [c] = true ↔ c ∈ s := by
  rw [stringsContains_iff_substring]
  constructor
  · intro h
    exact h.subset (List.mem_singleton_self c)
  · intro h
    obtain ⟨a, b, rfl⟩ := List.append_of_mem h
    exact ⟨a, b, by simp⟩

theorem stringsIndex_sep_append (rest : GoString) :
    ∀ f : GoString, stringsIndex f [93, 91] = none →
      stringsIndex (f ++ 93 :: 91 :: rest) [93, 91] = some f.length := by
  intro f
  induction f with
  | nil => intro _; simp [stringsIndex]
  | cons c t ih =>
    intro h
    simp only [stringsIndex] at h
    split at h
    · simp at h
    · rename_i hp
      have ht : stringsIndex t [93, 91] = none := by
        cases hi : stringsIndex t [93, 91] with
        | none => rfl
        | some k => simp [hi] at h
      have hq : ¬ List.isPrefixOf [93, 91] (c :: (t ++ 93 :: 91 :: rest)) = true := by
        cases t with
        | nil =>
          simp only [List.nil_append, List.isPrefixOf_cons₂, Bool.and_eq_true, beq_iff_eq,
            not_and]
          intro _ h2
          exact absurd h2 (by decide)
        | cons d u => simpa using hp
      rw [List.cons_append]
      simp only [stringsIndex]
      rw [if_neg hq, ih ht]
      simp

theorem genSplit_of_index_none (s sep : GoString) (n : Nat)
    (h : stringsIndex s sep = none) : genSplit s sep n = [s] := by
  cases n <;> simp [genSplit, h]

theorem genSplit_sep_append (f rest : GoString) (n : Nat)
    (h : stringsIndex f [93, 91] = none) :
    genSplit (f ++ 93 :: 91 :: rest) [93, 91] (n + 1) = f :: genSplit rest [93, 91] n := by
  simp only [genSplit, stringsIndex_sep_append rest f h]
  simp

theorem index_none_of_not_contains {s sub : GoString}
    (h : stringsContains s sub = false) : stringsIndex s sub = none := by
  unfold stringsContains at h
  cases hi : stringsIndex s sub with
  | none => rfl
  | some k => simp [hi] at h

theorem stringsSplit_four (ts sev caller msg : GoString)
    (h1 : stringsContains ts (str "][") = false)
    (h2 : stringsContains sev (str "][") = false)
    (h3 : stringsContains caller (str "][") = false)
    (h4 : stringsContains msg (str "][") = false) :
    stringsSplit (ts ++ str "][" ++ sev ++ str "][" ++ caller ++ str "][" ++ msg) (str "][")
      = [ts, sev, caller, msg] := by
  rw [str_sep] at *
  have e : ts ++ [93, 91] ++ sev ++ [93, 91] ++ caller ++ [93, 91] ++ msg
      = ts ++ 93 :: 91 :: (sev ++ 93 :: 91 :: (caller ++ 93 :: 91 :: msg)) := by simp
  obtain ⟨k, hk⟩ : ∃ k, (ts ++ [93, 91] ++ sev ++ [93, 91] ++ caller ++ [93, 91] ++ msg).length
      = k + 3 := ⟨ts.length + sev.length + caller.length + msg.length + 3, by simp; omega⟩
  unfold stringsSplit
  rw [hk, e, genSplit_sep_append _ _ _ (index_none_of_not_contains h1),
    genSplit_sep_append _ _ _ (index_none_of_not_contains h2),
    genSplit_sep_append _ _ _ (index_none_of_not_contains h3),
    genSplit_of_index_none _ _ _ (index_none_of_not_contains h4)]

theorem slice_inner (line : GoString) :
    (line.take (line.length - 1)).drop 1 = (line.drop 1).dropLast := by
  rw [List.dropLast_eq_take, List.drop_take, List.length_drop]

/-! ## `parseLog` -/

theorem sliceString_short (line : GoString) (h : line.length < 2) :
    sliceString line 1 (line.length - 1) = none := by
  unfold sliceString
  rw [if_neg (by omega)]

theorem sliceString_inner (line : GoString) (h : 2 ≤ line.length) :
    sliceString line 1 (line.length - 1) = some ((line.take (line.length - 1)).drop 1) := by
  unfold sliceString
  rw [if_pos (by omega)]
  have e : ((line.length : Int) - 1).toNat = line.length - 1 := by omega
  rw [e]
  rfl

theorem parseLog_short (line : GoString) (h : line.length < 2) : parseLog line = none := by
  unfold parseLog
  rw [sliceString_short line h]

theorem parseLog_eq (line : GoString) (h : 2 ≤ line.length) :
    parseLog line =
      if (stringsSplit (line.drop 1).dropLast (str "][")).length = 4 then
        some (.ok
          { datetime := (stringsSplit (line.drop 1).dropLast (str "][")).getD 0 []
            prefix_ := (stringsSplit (line.drop 1).dropLast (str "][")).getD 1 []
            callerFunction := (stringsSplit (line.drop 1).dropLast (str "][")).getD 2 []
            message := (stringsSplit (line.drop 1).dropLast (str "][")).getD 3 [] })
      else some (.error (str "parsing log failed")) := by
  obtain ⟨segs, hsegs⟩ : ∃ segs, stringsSplit (line.drop 1).dropLast (str "][") = segs :=
    ⟨_, rfl⟩
  have hseg : stringsSplit ((line.take (line.length - 1)).drop 1) (str "][") = segs := by
    rw [slice_inner, hsegs]
  unfold parseLog
  rw [sliceString_inner line h]
  simp only [hseg, hsegs]
  by_cases h4 : segs.length = 4
  · rw [dif_neg (by simpa using h4), if_pos h4]
    simp [List.getD_eq_getElem?_getD, h4]
  · rw [dif_pos h4, if_neg h4]

theorem parseLog_of_split (line : GoString) (h : 2 ≤ line.length) (a b c d : GoString)
    (hs : stringsSplit (line.drop 1).dropLast (str "][") = [a, b, c, d]) :
    parseLog line = some (.ok ⟨a, b, c, d⟩) := by
  rw [parseLog_eq line h, hs]
  rfl

theorem parseLog_ok_split (line : GoString) (log : Log)
    (h : parseLog line = some (.ok log)) :
    2 ≤ line.length ∧ stringsSplit (line.drop 1).dropLast (str "][")
      = [log.datetime, log.prefix_, log.callerFunction, log.message] := by
  have hlen : 2 ≤ line.length := by
    by_contra hc
    rw [parseLog_short line (by omega)] at h
    cases h
  refine ⟨hlen, ?_⟩
  rw [parseLog_eq line hlen] at h
  generalize stringsSplit (line.drop 1).dropLast (str "][") = segs at h
  match segs, h with
  | [a, b, c, d], h =>
    simp only [List.length_cons, List.length_nil, if_true, Option.some.injEq,
      Except.ok.injEq] at h
    subst h
    rfl
  | [], h => simp at h
  | [_], h => simp at h
  | [_, _], h => simp at h
  | [_, _, _], h => simp at h
  | _ :: _ :: _ :: _ :: _ :: _, h => simp at h

theorem parseLog_err_text (line : GoString) (e : GoString)
    (h : parseLog line = some (.error e)) : e = str "parsing log failed" := by
  have hlen : 2 ≤ line.length := by
    by_contra hc
    rw [parseLog_short line (by omega)] at h
    cases h
  rw [parseLog_eq line hlen] at h
  split at h
  · cases h
  · simp only [Option.some.injEq, Except.error.injEq] at h
    exact h.symm

/-- C1. For every line of at least 2 bytes, `parseLog` splits the line without its first
and last byte on `"]["`; it returns a `Log` exactly when the split has 4 segments, the
fields being segments 0, 1, 2, 3 in that order, and otherwise it returns the error
`"parsing log failed"` (and no `Log`). -/
theorem parseLog_segments (line : GoString) (h : 2 ≤ line.length) :
    let segments := stringsSplit (line.drop 1).dropLast (str "][")
    ((∃ log, parseLog line = some (.ok log)) ↔ segments.length = 4) ∧
    (segments.length = 4 → parseLog line = some (.ok
      { datetime := segments.getD 0 []
        prefix_ := segments.getD 1 []
        callerFunction := segments.getD 2 []
        message := segments.getD 3 [] })) ∧
    (segments.length ≠ 4 → parseLog line = some (.error (str "parsing log failed"))) := by
  intro segments
  have he := parseLog_eq line h
  by_cases h4 : segments.length = 4
  · rw [if_pos h4] at he
    exact ⟨⟨fun _ => h4, fun _ => ⟨_, he⟩⟩, fun _ => he, fun hn => absurd h4 hn⟩
  · rw [if_neg h4] at he
    refine ⟨⟨fun ⟨log, hl⟩ => ?_, fun hn => absurd hn h4⟩, fun hn => absurd hn h4,
      fun _ => he⟩
    rw [he] at hl
    cases hl

theorem parseLog_segments_witness :
    2 ≤ (str "[t][Info][main][hello]").length ∧
    parseLog (str "[t][Info][main][hello]")
      = some (.ok ⟨str "t", str "Info", str "main", str "hello"⟩) ∧
    parseLog (str "[a][b]") = some (.error (str "parsing log failed")) :=
  ⟨by decide,
   ((parseLog_segments (str "[t][Info][main][hello]") (by decide)).2.1 (by decide)).trans
     (by decide),
   (parseLog_segments (str "[a][b]") (by decide)).2.2 (by decide)⟩

/-- C2. Round trip: when none of `ts`, `sev`, `caller`, `msg` contains `"]["`, parsing
`"[" + ts + "][" + sev + "][" + caller + "][" + msg + "]"` succeeds with exactly these
four fields (empty fields and fields beginning or ending with a bracket included). -/
theorem parseLog_roundtrip (ts sev caller msg : GoString)
    (h1 : ¬ str "][" <:+: ts) (h2 : ¬ str "][" <:+: sev)
    (h3 : ¬ str "][" <:+: caller) (h4 : ¬ str "][" <:+: msg) :
    parseLog (str "[" ++ ts ++ str "][" ++ sev ++ str "][" ++ caller ++ str "][" ++ msg ++ str "]")
      = some (.ok ⟨ts, sev, caller, msg⟩) := by
  have e1 : str "[" = [91] := by decide
  have e2 : str "]" = [93] := by decide
  have hin : List.dropLast (List.drop 1
      (str "[" ++ ts ++ str "][" ++ sev ++ str "][" ++ caller ++ str "][" ++ msg ++ str "]"))
      = ts ++ str "][" ++ sev ++ str "][" ++ caller ++ str "][" ++ msg := by
    rw [e1, e2]
    simp only [List.append_assoc, List.singleton_append, List.drop_succ_cons, List.drop_zero]
    simp only [← List.append_assoc]
    exact List.dropLast_concat
  apply parseLog_of_split
  · rw [e1, e2]; simp; omega
  · rw [hin]
    exact stringsSplit_four ts sev caller msg (not_contains_of_not_substring h1)
      (not_contains_of_not_substring h2) (not_contains_of_not_substring h3)
      (not_contains_of_not_substring h4)

theorem parseLog_roundtrip_witness :
    parseLog (str "[][[x][y]][]]") = some (.ok ⟨str "", str "[x", str "y]", str "]"⟩) :=
  parseLog_roundtrip (str "") (str "[x") (str "y]") (str "]")
    (by rw [← stringsContains_iff_substring]; decide)
    (by rw [← stringsContains_iff_substring]; decide)
    (by rw [← stringsContains_iff_substring]; decide)
    (by rw [← stringsContains_iff_substring]; decide)

/-- C3. Parsing is lossless: when `parseLog` succeeds on a line, joining the fields
`datetime`, `prefix`, `callerFunction`, `message` with `"]["` gives the line without its
first and last byte. -/
theorem parseLog_lossless (line : GoString) (log : Log)
    (h : parseLog line = some (.ok log)) :
    log.datetime ++ str "][" ++ log.prefix_ ++ str "][" ++ log.callerFunction ++ str "]["
      ++ log.message = (line.drop 1).dropLast := by
  have hs := (parseLog_ok_split line log h).2
  have hj := genSplit_intercalate (str "][") (line.drop 1).dropLast.length (line.drop 1).dropLast
  unfold stringsSplit at hs
  rw [hs] at hj
  rw [← hj]
  simp [List.intercalate, List.intersperse]

theorem parseLog_lossless_witness :
    str "t" ++ str "][" ++ str "Info" ++ str "][" ++ str "main" ++ str "][" ++ str "hello"
      = ((str "[t][Info][main][hello]").drop 1).dropLast :=
  parseLog_lossless (str "[t][Info][main][hello]") ⟨str "t", str "Info", str "main", str "hello"⟩
    (by decide)

/-! ## Padding, trimming and colouring -/


theorem stringsRepeat_space (n : Int) (h : 0 ≤ n) :
    stringsRepeat (str " ") n = some (List.replicate n.toNat 32) := by
  have e : str " " = [32] := by decide
  have hr : ∀ k : Nat, (List.replicate k ([32] : GoString)).flatten = List.replicate k 32 := by
    intro k
    induction k with
    | zero => rfl
    | succ k ih => simp [List.replicate_succ, ih]
  unfold stringsRepeat
  rw [if_neg (by omega), e, hr]

theorem stringsRepeat_neg (s : GoString) (n : Int) (h : n < 0) : stringsRepeat s n = none := by
  unfold stringsRepeat
  rw [if_pos h]

theorem spaceEncodings_length : ∀ w ∈ spaceEncodings, w.length ≤ 3 := by decide

theorem trimLeftSpace_of_find_none (n : Nat) (s : GoString)
    (h : spaceEncodings.find? (fun w => w.isPrefixOf s) = none) : trimLeftSpace n s = s := by
  cases n <;> simp [trimLeftSpace, h]

theorem trimRightSpace_of_find_none (n : Nat) (s : GoString)
    (h : spaceEncodings.find? (fun w => w.isSuffixOf s) = none) : trimRightSpace n s = s := by
  cases n <;> simp [trimRightSpace, h]

theorem find_prefix_append (name rest : GoString) (hl : 3 ≤ name.length)
    (h : spaceEncodings.find? (fun w => w.isPrefixOf name) = none) :
    spaceEncodings.find? (fun w => w.isPrefixOf (name ++ rest)) = none := by
  rw [List.find?_eq_none] at h ⊢
  intro w hw hp
  apply h w hw
  have h1 : w <+: name ++ rest := List.isPrefixOf_iff_prefix.mp hp
  have h2 : w.length ≤ name.length := le_trans (spaceEncodings_length w hw) hl
  exact List.isPrefixOf_iff_prefix.mpr
    (List.prefix_of_prefix_length_le h1 (List.prefix_append name rest) h2)

theorem find_suffix_space (s : GoString) :
    spaceEncodings.find? (fun w => w.isSuffixOf (s ++ [32])) = some [32] := by
  have e : spaceEncodings = [9] :: [10] :: [11] :: [12] :: [13] :: [32] :: spaceEncodings.drop 6 := by
    decide
  generalize spaceEncodings.drop 6 = rest at e
  rw [e]
  simp +decide [List.find?, List.isSuffixOf, List.isPrefixOf]

theorem trimRightSpace_step (s : GoString) (m : Nat) :
    trimRightSpace (m + 1) (s ++ [32]) = trimRightSpace m s := by
  rw [trimRightSpace, find_suffix_space]
  simp

theorem trimRightSpace_padded (name : GoString)
    (h : spaceEncodings.find? (fun w => w.isSuffixOf name) = none) :
    ∀ (k n : Nat), k ≤ n → trimRightSpace n (name ++ List.replicate k 32) = name := by
  intro k
  induction k with
  | zero =>
    intro n _
    simpa using trimRightSpace_of_find_none n name h
  | succ k ih =>
    intro n hn
    obtain ⟨m, rfl⟩ : ∃ m, n = m + 1 := ⟨n - 1, by omega⟩
    rw [List.replicate_succ', ← List.append_assoc, trimRightSpace_step]
    exact ih m (by omega)

theorem stringsTrimSpace_padded (name : GoString) (k : Nat) (hl : 3 ≤ name.length)
    (h1 : spaceEncodings.find? (fun w => w.isPrefixOf name) = none)
    (h2 : spaceEncodings.find? (fun w => w.isSuffixOf name) = none) :
    stringsTrimSpace (name ++ List.replicate k 32) = name := by
  unfold stringsTrimSpace
  simp only [trimLeftSpace_of_find_none _ _ (find_prefix_append name _ hl h1)]
  exact trimRightSpace_padded name h2 k _ (by simp)

theorem stringsTrimSpace_severity (name : GoString) (k : Nat)
    (h : name ∈ [debugPrefix, infoPrefix, warningPrefix, errorPrefix, fatalPrefix]) :
    stringsTrimSpace (name ++ List.replicate k 32) = name := by
  simp only [List.mem_cons, List.mem_singleton, List.not_mem_nil, or_false] at h
  rcases h with rfl | rfl | rfl | rfl | rfl <;>
    exact stringsTrimSpace_padded _ k (by decide) (by decide) (by decide)

theorem severity_cases {name : GoString}
    (h : name ∈ [debugPrefix, infoPrefix, warningPrefix, errorPrefix, fatalPrefix]) :
    name = debugPrefix ∨ name = infoPrefix ∨ name = warningPrefix ∨ name = errorPrefix ∨
      name = fatalPrefix := by
  simpa using h

theorem setPrefixLength_eq (st : State) (log : Log)
    (h : (log.prefix_.length : Int) ≤ st.longestPrefixLength) :
    setPrefixLength st log = some { log with prefix_ := (log.prefix_ ++
      List.replicate (st.longestPrefixLength - log.prefix_.length).toNat 32) } := by
  unfold setPrefixLength
  rw [stringsRepeat_space _ (by omega)]

theorem setCallerFunctionLength_eq (st : State) (log : Log)
    (h : (log.callerFunction.length : Int) ≤ st.longestCallerFunctionLength) :
    setCallerFunctionLength st log = some { log with callerFunction := (log.callerFunction ++
      List.replicate (st.longestCallerFunctionLength - log.callerFunction.length).toNat 32) } := by
  unfold setCallerFunctionLength
  rw [stringsRepeat_space _ (by omega)]

theorem setPrefixColor_padded (pal : Palette) (log : Log) (name : GoString) (k : Nat)
    (h : name ∈ [debugPrefix, infoPrefix, warningPrefix, errorPrefix, fatalPrefix]) :
    (setPrefixColor pal { log with prefix_ := name ++ List.replicate k 32 }).prefix_ =
      (if name = debugPrefix then pal.Cyan
        else if name = infoPrefix then pal.Green
        else if name = warningPrefix then pal.Yellow
        else pal.Red) (name ++ List.replicate k 32) := by
  unfold setPrefixColor
  simp only [stringsTrimSpace_severity name k h]
  rcases severity_cases h with rfl | rfl | rfl | rfl | rfl
  · simp
  · rw [if_neg (by decide), if_pos rfl, if_neg (by decide), if_pos rfl]
  · rw [if_neg (by decide), if_neg (by decide), if_pos rfl, if_neg (by decide),
      if_neg (by decide), if_pos rfl]
  · rw [if_neg (by decide), if_neg (by decide), if_neg (by decide), if_pos rfl,
      if_neg (by decide), if_neg (by decide), if_neg (by decide)]
  · rw [if_neg (by decide), if_neg (by decide), if_neg (by decide), if_neg (by decide),
      if_pos rfl, if_neg (by decide), if_neg (by decide), if_neg (by decide)]

theorem setPrefixColor_fields (pal : Palette) (log : Log) :
    (setPrefixColor pal log).datetime = log.datetime ∧
    (setPrefixColor pal log).callerFunction = log.callerFunction ∧
    (setPrefixColor pal log).message = log.message := by
  unfold setPrefixColor
  dsimp only
  split_ifs <;> simp

/-- The text that `viewLog` prints for an entry, when no padding count is negative. -/
theorem viewLog_eq (pal : Palette) (log : Log) (st : State)
    (hp : (log.prefix_.length : Int) ≤ st.longestPrefixLength)
    (hc : (log.callerFunction.length : Int) ≤ st.longestCallerFunctionLength) :
    viewLog pal log st = some { st with stdout := st.stdout ++
      [str "[" ++ log.datetime ++ str "][" ++
        (setPrefixColor pal { log with prefix_ := (log.prefix_ ++
          List.replicate (st.longestPrefixLength - log.prefix_.length).toNat 32) }).prefix_ ++
        str "][" ++
        pal.Magenta (log.callerFunction ++
          List.replicate (st.longestCallerFunctionLength - log.callerFunction.length).toNat 32) ++
        str "]" ++ log.message ++ newLine] } := by
  unfold viewLog
  rw [setPrefixLength_eq st log hp]
  simp only
  rw [setCallerFunctionLength_eq st ⟨log.datetime, log.prefix_ ++
    List.replicate (st.longestPrefixLength - log.prefix_.length).toNat 32,
    log.callerFunction, log.message⟩ hc]
  simp only [setCallerFunctionColor]
  have h := setPrefixColor_fields pal
    { datetime := log.datetime
      prefix_ := (log.prefix_ ++
        List.replicate (st.longestPrefixLength - log.prefix_.length).toNat 32)
      callerFunction := (log.callerFunction ++
        List.replicate (st.longestCallerFunctionLength - log.callerFunction.length).toNat 32)
      message := log.message }
  obtain ⟨h1, h2, h3⟩ := h
  rw [h1, h2, h3]
  have hcol : ∀ (p c c2 : GoString),
      (setPrefixColor pal ⟨log.datetime, p, c, log.message⟩).prefix_ =
      (setPrefixColor pal ⟨log.datetime, p, c2, log.message⟩).prefix_ := by
    intro p c c2
    unfold setPrefixColor
    dsimp only
    split_ifs <;> rfl
  rw [hcol _ _ log.callerFunction]

/-- C9. For every retained entry (its severity is one of the five names, and the widths
measured by the scan are at least the lengths of its fields), the line printed by
`viewLog` is exactly `"[" + datetime + "][" + C(padded prefix) + "][" +
Magenta(padded callerFunction) + "]" + message + "\n"`, where `C` is the colour of the
severity: datetime and message verbatim, no brackets around the message and no padding
of it, the caller always in magenta. -/
theorem viewLog_line (pal : Palette) (log : Log) (st : State)
    (hsev : log.prefix_ ∈ [debugPrefix, infoPrefix, warningPrefix, errorPrefix, fatalPrefix])
    (hp : (log.prefix_.length : Int) ≤ st.longestPrefixLength)
    (hc : (log.callerFunction.length : Int) ≤ st.longestCallerFunctionLength) :
    viewLog pal log st = some { st with stdout := st.stdout ++
      [str "[" ++ log.datetime ++ str "][" ++
        (if log.prefix_ = debugPrefix then pal.Cyan
          else if log.prefix_ = infoPrefix then pal.Green
          else if log.prefix_ = warningPrefix then pal.Yellow
          else pal.Red)
          (log.prefix_ ++
            List.replicate (st.longestPrefixLength - log.prefix_.length).toNat 32) ++
        str "][" ++
        pal.Magenta (log.callerFunction ++
          List.replicate (st.longestCallerFunctionLength - log.callerFunction.length).toNat 32) ++
        str "]" ++ log.message ++ str "\n"] } := by
  rw [viewLog_eq pal log st hp hc, setPrefixColor_padded pal _ _ _ hsev]
  rfl

/-! ## The scan loop and the printing loop -/

theorem filterLog_iff (prefixes : GoString) (log : Log) :
    filterLog prefixes log = true ↔
      (log.prefix_ = debugPrefix ∧ str "d" <:+: prefixes) ∨
      (log.prefix_ = infoPrefix ∧ str "i" <:+: prefixes) ∨
      (log.prefix_ = warningPrefix ∧ str "w" <:+: prefixes) ∨
      (log.prefix_ = errorPrefix ∧ str "e" <:+: prefixes) ∨
      (log.prefix_ = fatalPrefix ∧ str "f" <:+: prefixes) := by
  simp only [← stringsContains_iff_substring]
  unfold filterLog
  simp only [Bool.and_eq_true, decide_eq_true_eq]
  split_ifs <;> simp_all

theorem filterLog_severity (prefixes : GoString) (log : Log)
    (h : filterLog prefixes log = true) :
    log.prefix_ ∈ [debugPrefix, infoPrefix, warningPrefix, errorPrefix, fatalPrefix] := by
  rw [filterLog_iff] at h
  simp only [List.mem_cons, List.mem_singleton, List.not_mem_nil, or_false]
  tauto

theorem updateLongestPrefixLength_eq (p : GoString) (st : State) :
    updateLongestPrefixLength p st =
      { st with longestPrefixLength := max st.longestPrefixLength p.length } := by
  unfold updateLongestPrefixLength
  dsimp only
  split_ifs with h
  · rw [max_eq_right (by omega)]
  · rw [max_eq_left (by omega)]

theorem updateLongestCallerFunctionLength_eq (c : GoString) (st : State) :
    updateLongestCallerFunctionLength c st =
      { st with longestCallerFunctionLength := max st.longestCallerFunctionLength c.length } := by
  unfold updateLongestCallerFunctionLength
  dsimp only
  split_ifs with h
  · rw [max_eq_right (by omega)]
  · rw [max_eq_left (by omega)]

/-- The scan of a file all of whose lines parse: the retained entries are the entries
that pass the filter, in file order; the counters grow to the maximal lengths. -/
theorem scanLoop_all_ok (prefixes : GoString) :
    ∀ (lines : List GoString) (entries : List Log) (st : State) (logs : List Log),
      lines.map parseLog = entries.map (fun e => some (Except.ok e)) →
      0 ≤ st.longestPrefixLength → 0 ≤ st.longestCallerFunctionLength →
      ∃ st1, scanLoop prefixes lines st logs
          = some (.ok (st1, logs ++ entries.filter (filterLog prefixes))) ∧
        st1.stdout = st.stdout ∧
        st1.longestPrefixLength = max st.longestPrefixLength
          (((entries.filter (filterLog prefixes)).map
            (fun l => l.prefix_.length)).foldr max 0 : Nat) ∧
        st1.longestCallerFunctionLength = max st.longestCallerFunctionLength
          (((entries.filter (filterLog prefixes)).map
            (fun l => l.callerFunction.length)).foldr max 0 : Nat) := by
  intro lines
  induction lines with
  | nil =>
    intro entries st logs h hp0 hc0
    cases entries with
    | nil => exact ⟨st, by simp [scanLoop, hp0, hc0]⟩
    | cons e es => simp at h
  | cons line rest ih =>
    intro entries st logs h hp0 hc0
    cases entries with
    | nil => simp at h
    | cons e es =>
      simp only [List.map_cons, List.cons.injEq] at h
      obtain ⟨hl, hr⟩ := h
      simp only [scanLoop, hl]
      by_cases hf : filterLog prefixes e = true
      · obtain ⟨st1, h1, h2, h3, h4⟩ := ih es
          (updateLongestPrefixLength e.prefix_
            (updateLongestCallerFunctionLength e.callerFunction st)) (logs ++ [e]) hr
          (by rw [updateLongestPrefixLength_eq, updateLongestCallerFunctionLength_eq]
              exact le_trans hp0 (le_max_left _ _))
          (by rw [updateLongestPrefixLength_eq, updateLongestCallerFunctionLength_eq]
              exact le_trans hc0 (le_max_left _ _))
        refine ⟨st1, ?_, ?_, ?_, ?_⟩
        · simp only [hf, if_true, h1, List.filter_cons_of_pos hf]
          simp
        · rw [h2, updateLongestPrefixLength_eq, updateLongestCallerFunctionLength_eq]
        · rw [h3, updateLongestPrefixLength_eq, updateLongestCallerFunctionLength_eq,
            List.filter_cons_of_pos hf]
          simp only [List.map_cons, List.foldr_cons, Nat.cast_max]
          rw [max_assoc]
        · rw [h4, updateLongestPrefixLength_eq, updateLongestCallerFunctionLength_eq,
            List.filter_cons_of_pos hf]
          simp only [List.map_cons, List.foldr_cons, Nat.cast_max]
          rw [max_assoc]
      · obtain ⟨st1, h1, h2, h3, h4⟩ := ih es st logs hr hp0 hc0
        refine ⟨st1, ?_, h2, ?_, ?_⟩
        · simp only [hf, h1, List.filter_cons_of_neg hf]
          simp
        · rw [h3, List.filter_cons_of_neg hf]
        · rw [h4, List.filter_cons_of_neg hf]

/-- A scan that ends at `io.EOF` has parsed every line. -/
theorem scanLoop_ok_inv (prefixes : GoString) :
    ∀ (lines : List GoString) (st : State) (logs : List Log) (r : State × List Log),
      scanLoop prefixes lines st logs = some (.ok r) →
      ∃ entries : List Log, lines.map parseLog = entries.map (fun e => some (Except.ok e)) := by
  intro lines
  induction lines with
  | nil => intro _ _ _ _; exact ⟨[], rfl⟩
  | cons line rest ih =>
    intro st logs r h
    simp only [scanLoop] at h
    cases hp : parseLog line with
    | none => simp [hp] at h
    | some res =>
      cases res with
      | error err => simp [hp] at h
      | ok e =>
        simp only [hp] at h
        split_ifs at h
        · obtain ⟨es, hes⟩ := ih _ _ _ h
          exact ⟨e :: es, by simp [hes, hp]⟩
        · obtain ⟨es, hes⟩ := ih _ _ _ h
          exact ⟨e :: es, by simp [hes, hp]⟩

/-- The scan stops at the first line that fails to parse, after `printError`. -/
theorem scanLoop_parse_error (prefixes : GoString) (bad err : GoString) (post : List GoString)
    (hbad : parseLog bad = some (.error err)) :
    ∀ (pre : List GoString) (entries : List Log) (st : State) (logs : List Log),
      pre.map parseLog = entries.map (fun e => some (Except.ok e)) →
      ∃ st1, scanLoop prefixes (pre ++ bad :: post) st logs
          = some (.error (printError err st1)) ∧ st1.stdout = st.stdout := by
  intro pre
  induction pre with
  | nil =>
    intro entries st logs _
    exact ⟨st, by simp [scanLoop, hbad]⟩
  | cons line rest ih =>
    intro entries st logs h
    cases entries with
    | nil => simp at h
    | cons e es =>
      simp only [List.map_cons, List.cons.injEq] at h
      obtain ⟨hl, hr⟩ := h
      simp only [List.cons_append, scanLoop, hl]
      split_ifs
      · obtain ⟨st1, h1, h2⟩ := ih es
          (updateLongestPrefixLength e.prefix_
            (updateLongestCallerFunctionLength e.callerFunction st)) (logs ++ [e]) hr
        refine ⟨st1, h1, ?_⟩
        rw [h2, updateLongestPrefixLength_eq, updateLongestCallerFunctionLength_eq]
      · exact ih es st logs hr

/-- A line whose entry the filter rejects leaves no trace in the scan. -/
theorem scanLoop_skip (prefixes : GoString) (line : GoString) (log : Log)
    (post : List GoString) (hp : parseLog line = some (.ok log))
    (hf : filterLog prefixes log = false) :
    ∀ (pre : List GoString) (st : State) (logs : List Log),
      scanLoop prefixes (pre ++ line :: post) st logs = scanLoop prefixes (pre ++ post) st logs := by
  intro pre
  induction pre with
  | nil =>
    intro st logs
    simp [scanLoop, hp, hf]
  | cons l rest ih =>
    intro st logs
    simp only [List.cons_append, scanLoop]
    cases parseLog l with
    | none => rfl
    | some res =>
      cases res with
      | error err => rfl
      | ok e =>
        simp only
        split_ifs
        · exact ih _ _
        · exact ih _ _

/-- The printing loop: one `viewLog` line for each entry, in order, at the widths of the
state the loop starts in. -/
theorem viewLoop_eq (pal : Palette) :
    ∀ (logs : List Log) (st : State),
      (∀ l ∈ logs, (l.prefix_.length : Int) ≤ st.longestPrefixLength ∧
        (l.callerFunction.length : Int) ≤ st.longestCallerFunctionLength) →
      ∃ outs, viewLoop pal logs st = some { st with stdout := st.stdout ++ outs } ∧
        List.Forall₂ (fun l o => viewLog pal l { st with stdout := [] }
          = some { st with stdout := [o] }) logs outs := by
  intro logs
  induction logs with
  | nil =>
    intro st _
    exact ⟨[], by simp [viewLoop], List.Forall₂.nil⟩
  | cons l rest ih =>
    intro st h
    have hl := h l (List.mem_cons_self _ _)
    have h1 := viewLog_eq pal l st hl.1 hl.2
    have h0 := viewLog_eq pal l { st with stdout := [] } hl.1 hl.2
    obtain ⟨outs, h2, h3⟩ := ih { st with stdout := st.stdout ++
      [str "[" ++ l.datetime ++ str "][" ++
        (setPrefixColor pal { l with prefix_ := (l.prefix_ ++
          List.replicate (st.longestPrefixLength - l.prefix_.length).toNat 32) }).prefix_ ++
        str "][" ++
        pal.Magenta (l.callerFunction ++
          List.replicate (st.longestCallerFunctionLength - l.callerFunction.length).toNat 32) ++
        str "]" ++ l.message ++ newLine] }
      (fun l' hl' => h l' (List.mem_cons_of_mem _ hl'))
    refine ⟨_ :: outs, ?_, List.Forall₂.cons h0 h3⟩
    simp only [viewLoop, h1, h2]
    simp

theorem foldr_max_le (xs : List Nat) : ∀ x ∈ xs, x ≤ xs.foldr max 0 := by
  induction xs with
  | nil => intro x hx; cases hx
  | cons a t ih =>
    intro x hx
    simp only [List.foldr_cons]
    rcases List.mem_cons.mp hx with rfl | h
    · exact le_max_left _ _
    · exact le_trans (ih x h) (le_max_right _ _)

/-! ## The claims about `viewLogs` -/

theorem scanLoop_retained (prefixes : GoString) :
    ∀ (lines : List GoString) (entries : List Log) (st : State) (logs : List Log),
      lines.map parseLog = entries.map (fun e => some (Except.ok e)) →
      ∃ st1, scanLoop prefixes lines st logs
          = some (.ok (st1, logs ++ entries.filter (filterLog prefixes))) := by
  intro lines
  induction lines with
  | nil =>
    intro entries st logs h
    cases entries with
    | nil => exact ⟨st, by simp [scanLoop]⟩
    | cons e es => simp at h
  | cons line rest ih =>
    intro entries st logs h
    cases entries with
    | nil => simp at h
    | cons e es =>
      simp only [List.map_cons, List.cons.injEq] at h
      obtain ⟨hl, hr⟩ := h
      simp only [scanLoop, hl]
      by_cases hf : filterLog prefixes e = true
      · obtain ⟨st1, h1⟩ := ih es
          (updateLongestPrefixLength e.prefix_
            (updateLongestCallerFunctionLength e.callerFunction st)) (logs ++ [e]) hr
        exact ⟨st1, by simp [hf, h1]⟩
      · obtain ⟨st1, h1⟩ := ih es st logs hr
        exact ⟨st1, by simp [hf, h1]⟩

/-- The widths after a scan from the reset counters are the maximal lengths over the
retained entries. -/
theorem scanLoop_widths (prefixes : GoString) (lines : List GoString) (st st1 : State)
    (logs : List Log)
    (hscan : scanLoop prefixes lines
      { st with longestPrefixLength := 0, longestCallerFunctionLength := 0 } []
        = some (.ok (st1, logs))) :
    st1.stdout = st.stdout ∧
    st1.longestPrefixLength = ((logs.map (fun l => l.prefix_.length)).foldr max 0 : Nat) ∧
    st1.longestCallerFunctionLength
      = ((logs.map (fun l => l.callerFunction.length)).foldr max 0 : Nat) := by
  obtain ⟨entries, he⟩ := scanLoop_ok_inv prefixes lines _ _ _ hscan
  obtain ⟨st2, h1, h2, h3, h4⟩ := scanLoop_all_ok prefixes lines entries
    { st with longestPrefixLength := 0, longestCallerFunctionLength := 0 } [] he
    (le_refl _) (le_refl _)
  rw [hscan] at h1
  simp only [List.nil_append, Option.some.injEq, Except.ok.injEq, Prod.mk.injEq] at h1
  obtain ⟨rfl, rfl⟩ := h1
  refine ⟨h2, ?_, ?_⟩
  · rw [h3]; exact max_eq_right (by positivity)
  · rw [h4]; exact max_eq_right (by positivity)

theorem scanLoop_widths_le (prefixes : GoString) (lines : List GoString) (st st1 : State)
    (logs : List Log)
    (hscan : scanLoop prefixes lines
      { st with longestPrefixLength := 0, longestCallerFunctionLength := 0 } []
        = some (.ok (st1, logs))) :
    ∀ l ∈ logs, (l.prefix_.length : Int) ≤ st1.longestPrefixLength ∧
      (l.callerFunction.length : Int) ≤ st1.longestCallerFunctionLength := by
  obtain ⟨_, h2, h3⟩ := scanLoop_widths prefixes lines st st1 logs hscan
  intro l hl
  rw [h2, h3]
  constructor
  · exact_mod_cast foldr_max_le _ _ (List.mem_map_of_mem (fun l => l.prefix_.length) hl)
  · exact_mod_cast foldr_max_le _ _ (List.mem_map_of_mem (fun l => l.callerFunction.length) hl)

/-- C6. Column alignment: after the scan of one run, for every retained entry the prefix
after `setPrefixLength` has the maximal prefix length over the retained entries and the
caller after `setCallerFunctionLength` has the maximal caller length over the retained
entries; each is the original field followed by spaces only, so cutting the padding off
gives the original field back. -/
theorem column_alignment (prefixes : GoString) (lines : List GoString) (st st1 : State)
    (logs : List Log)
    (hscan : scanLoop prefixes lines
      { st with longestPrefixLength := 0, longestCallerFunctionLength := 0 } []
        = some (.ok (st1, logs)))
    (l : Log) (hl : l ∈ logs) :
    ∃ p c : GoString,
      setPrefixLength st1 l = some { l with prefix_ := p } ∧
      setCallerFunctionLength st1 { l with prefix_ := p }
        = some { l with prefix_ := p, callerFunction := c } ∧
      p.length = (logs.map (fun e => e.prefix_.length)).foldr max 0 ∧
      c.length = (logs.map (fun e => e.callerFunction.length)).foldr max 0 ∧
      (∃ k, p = l.prefix_ ++ List.replicate k 32) ∧
      (∃ k, c = l.callerFunction ++ List.replicate k 32) ∧
      p.take l.prefix_.length = l.prefix_ ∧
      c.take l.callerFunction.length = l.callerFunction := by
  obtain ⟨_, hw1, hw2⟩ := scanLoop_widths prefixes lines st st1 logs hscan
  obtain ⟨hp, hc⟩ := scanLoop_widths_le prefixes lines st st1 logs hscan l hl
  refine ⟨_, _, setPrefixLength_eq st1 l hp, setCallerFunctionLength_eq st1 _ hc,
    ?_, ?_, ⟨_, rfl⟩, ⟨_, rfl⟩, by simp, by simp⟩
  · rw [hw1] at hp ⊢
    simp only [List.length_append, List.length_replicate]
    omega
  · rw [hw2] at hc ⊢
    simp only [List.length_append, List.length_replicate]
    omega

theorem column_alignment_witness :
    ∃ p c : GoString,
      setPrefixLength ⟨8, 7, []⟩ ⟨str "t1", str "Info", str "a", str "x"⟩
        = some { (⟨str "t1", str "Info", str "a", str "x"⟩ : Log) with prefix_ := p } ∧
      setCallerFunctionLength ⟨8, 7, []⟩
          { (⟨str "t1", str "Info", str "a", str "x"⟩ : Log) with prefix_ := p }
        = some { (⟨str "t1", str "Info", str "a", str "x"⟩ : Log) with
            prefix_ := p, callerFunction := c } ∧
      p.length = (List.map (fun e => e.prefix_.length)
        [(⟨str "t1", str "Info", str "a", str "x"⟩ : Log),
          ⟨str "t3", str "Warning", str "main.Run", str "z"⟩]).foldr max 0 ∧
      c.length = (List.map (fun e => e.callerFunction.length)
        [(⟨str "t1", str "Info", str "a", str "x"⟩ : Log),
          ⟨str "t3", str "Warning", str "main.Run", str "z"⟩]).foldr max 0 ∧
      (∃ k, p = str "Info" ++ List.replicate k 32) ∧
      (∃ k, c = str "a" ++ List.replicate k 32) ∧
      p.take (str "Info").length = str "Info" ∧
      c.take (str "a").length = str "a" :=
  column_alignment (str "iw")
    [str "[t1][Info][a][x]", str "[t2][Debug][b][y]", str "[t3][Warning][main.Run][z]"]
    ⟨5, 9, []⟩ ⟨8, 7, []⟩ _ (by decide) ⟨str "t1", str "Info", str "a", str "x"⟩ (by decide)

/-- C8 (as stated, refuted). The line `[2023-01-01T00:00:00][Info][main.Run]started` of
the documented format, with filter `"i"`, is not printed: the run prints the single line
`"log_viewer: parsing log failed"`, so no run output is one line containing the green
`Info`, the magenta `main.Run` and the message `started`. -/
theorem unbracketed_message_rejected :
    viewLogs ansi
        (fun _ => some ⟨[str "[2023-01-01T00:00:00][Info][main.Run]started"], false⟩)
        (str "default.log") (str "i") ⟨0, 0, []⟩
      = some ⟨0, 0, [str "log_viewer: parsing log failed\n"]⟩ ∧
    ¬ ∃ st1 out, viewLogs ansi
        (fun _ => some ⟨[str "[2023-01-01T00:00:00][Info][main.Run]started"], false⟩)
        (str "default.log") (str "i") ⟨0, 0, []⟩ = some st1 ∧
      st1.stdout = [out] ∧ ansi.Green (str "Info") <:+: out ∧
      ansi.Magenta (str "main.Run") <:+: out ∧ str "started" <:+: out := by
  have hrun : viewLogs ansi
        (fun _ => some ⟨[str "[2023-01-01T00:00:00][Info][main.Run]started"], false⟩)
        (str "default.log") (str "i") ⟨0, 0, []⟩
      = some ⟨0, 0, [str "log_viewer: parsing log failed\n"]⟩ := by decide
  refine ⟨hrun, ?_⟩
  rintro ⟨st1, out, h1, h2, _, _, h5⟩
  rw [hrun] at h1
  cases h1
  simp only [List.cons.injEq, and_true] at h2
  subst h2
  rw [← stringsContains_iff_substring] at h5
  revert h5
  decide

theorem scanLoop_retained_mem (prefixes : GoString) (lines : List GoString) (st st1 : State)
    (logs : List Log) (hscan : scanLoop prefixes lines st [] = some (.ok (st1, logs))) :
    ∀ l ∈ logs, filterLog prefixes l = true := by
  obtain ⟨entries, he⟩ := scanLoop_ok_inv prefixes lines _ _ _ hscan
  obtain ⟨st2, h1⟩ := scanLoop_retained prefixes lines entries st [] he
  rw [hscan] at h1
  simp only [List.nil_append, Option.some.injEq, Except.ok.injEq, Prod.mk.injEq] at h1
  intro l hl
  rw [h1.2] at hl
  exact (List.mem_filter.mp hl).2

/-- C10. An entry whose severity is not exactly one of `Debug`, `Info`, `Warning`,
`Error`, `Fatal` is rejected by the filter for every filter string, is never among the
retained entries of a scan, and its line can be removed from the file without changing
the scan or the run of `viewLogs` (so nothing is printed for it). -/
theorem unknown_severity_dropped (line : GoString) (log : Log)
    (hparse : parseLog line = some (.ok log))
    (hsev : log.prefix_ ∉ [debugPrefix, infoPrefix, warningPrefix, errorPrefix, fatalPrefix]) :
    (∀ prefixes, filterLog prefixes log = false) ∧
    (∀ prefixes lines st st1 logs,
      scanLoop prefixes lines st [] = some (.ok (st1, logs)) → log ∉ logs) ∧
    (∀ prefixes pre post st logs,
      scanLoop prefixes (pre ++ line :: post) st logs
        = scanLoop prefixes (pre ++ post) st logs) ∧
    (∀ pal filename prefixes pre post closeFails st,
      viewLogs pal (fun _ => some ⟨pre ++ line :: post, closeFails⟩) filename prefixes st
        = viewLogs pal (fun _ => some ⟨pre ++ post, closeFails⟩) filename prefixes st) := by
  have hf : ∀ prefixes, filterLog prefixes log = false := by
    intro prefixes
    cases h : filterLog prefixes log with
    | false => rfl
    | true => exact absurd (filterLog_severity prefixes log h) hsev
  refine ⟨hf, ?_, ?_, ?_⟩
  · intro prefixes lines st st1 logs hscan hmem
    have := scanLoop_retained_mem prefixes lines st st1 logs hscan log hmem
    rw [hf prefixes] at this
    cases this
  · intro prefixes pre post st logs
    exact scanLoop_skip prefixes line log post hparse (hf prefixes) pre st logs
  · intro pal filename prefixes pre post closeFails st
    unfold viewLogs
    dsimp only
    rw [scanLoop_skip prefixes line log post hparse (hf prefixes) pre]
    simp only [deferredClose]

theorem unknown_severity_dropped_witness :
    filterLog (str "diwef") ⟨str "t", str "info", str "f", str "m"⟩ = false ∧
    filterLog (str "diwef") ⟨str "t", str "INFO", str "f", str "m"⟩ = false ∧
    filterLog (str "diwef") ⟨str "t", str "Info ", str "f", str "m"⟩ = false ∧
    filterLog (str "diwef") ⟨str "t", str "", str "f", str "m"⟩ = false :=
  ⟨(unknown_severity_dropped (str "[t][info][f][m]") _ (by decide) (by decide)).1 _,
   (unknown_severity_dropped (str "[t][INFO][f][m]") _ (by decide) (by decide)).1 _,
   (unknown_severity_dropped (str "[t][Info ][f][m]") _ (by decide) (by decide)).1 _,
   (unknown_severity_dropped (str "[t][][f][m]") _ (by decide) (by decide)).1 _⟩

theorem viewLog_line_witness :
    viewLog ansi ⟨str "t", str "Info", str "main", str "hello"⟩ ⟨6, 7, []⟩
      = some ⟨6, 7, [str "[t][\x1b[32mInfo   \x1b[0m][\x1b[35mmain  \x1b[0m]hello\n"]⟩ :=
  (viewLog_line ansi ⟨str "t", str "Info", str "main", str "hello"⟩ ⟨6, 7, []⟩
    (by decide) (by decide) (by decide)).trans (by decide)

/-! ## The filter letters, the error channel, colouring and the slicing panic -/

theorem stringsContains_letter (p q : GoString) (c : UInt8) (h : c ∈ p ↔ c ∈ q) :
    stringsContains p [c] = stringsContains q [c] := by
  have hp := stringsContains_byte p c
  have hq := stringsContains_byte q c
  cases h1 : stringsContains p [c] <;> cases h2 : stringsContains q [c] <;> simp_all

theorem filterLog_congr (p q : GoString)
    (h : ∀ c ∈ str "diwef", (c ∈ p ↔ c ∈ q)) (log : Log) :
    filterLog p log = filterLog q log := by
  have ed : str "d" = [100] := by decide
  have ei : str "i" = [105] := by decide
  have ew : str "w" = [119] := by decide
  have ee : str "e" = [101] := by decide
  have ef : str "f" = [102] := by decide
  unfold filterLog
  rw [ed, ei, ew, ee, ef,
    stringsContains_letter p q 100 (h 100 (by decide)),
    stringsContains_letter p q 105 (h 105 (by decide)),
    stringsContains_letter p q 119 (h 119 (by decide)),
    stringsContains_letter p q 101 (h 101 (by decide)),
    stringsContains_letter p q 102 (h 102 (by decide))]

theorem scanLoop_congr (p q : GoString) (h : ∀ log, filterLog p log = filterLog q log) :
    ∀ (lines : List GoString) (st : State) (logs : List Log),
      scanLoop p lines st logs = scanLoop q lines st logs := by
  intro lines
  induction lines with
  | nil => intro st logs; rfl
  | cons line rest ih =>
    intro st logs
    simp only [scanLoop, h, ih]

/-- C11. The run of `viewLogs` depends on the filter string only through which of the
letters `d`, `i`, `w`, `e`, `f` occur in it: two filter strings in which the same of
these five letters occur give the same result (output, counters, panic) on every file;
other characters, upper-case letters, repetitions and the order do not matter. -/
theorem filter_letters_only (pal : Palette) (openFile : GoString → Option File)
    (filename p q : GoString) (st : State)
    (h : ∀ c ∈ str "diwef", (c ∈ p ↔ c ∈ q)) :
    viewLogs pal openFile filename p st = viewLogs pal openFile filename q st := by
  unfold viewLogs
  simp only [scanLoop_congr p q (filterLog_congr p q h)]

theorem filter_letters_only_witness :
    viewLogs ansi (fun _ => some ⟨[str "[t1][Info][a][x]", str "[t2][Debug][b][y]",
        str "[t3][Warning][c][z]"], false⟩) (str "default.log") (str "wi") ⟨0, 0, []⟩
      = viewLogs ansi (fun _ => some ⟨[str "[t1][Info][a][x]", str "[t2][Debug][b][y]",
        str "[t3][Warning][c][z]"], false⟩) (str "default.log") (str "iDw W?xi") ⟨0, 0, []⟩ :=
  filter_letters_only ansi _ (str "default.log") (str "wi") (str "iDw W?xi") ⟨0, 0, []⟩
    (by decide)

/-- C12. When the file cannot be opened, `viewLogs` prints exactly one line,
`"log_viewer: opening log file failed"` and a newline, and returns: nothing is read, no
entry is printed and the counters are untouched, whatever the filter string. In
general `printError(m)` writes exactly `"log_viewer: " + m + "\n"`. -/
theorem open_failure (pal : Palette) (openFile : GoString → Option File)
    (filename prefixes : GoString) (st : State) (hopen : openFile filename = none) :
    viewLogs pal openFile filename prefixes st
      = some { st with stdout := st.stdout ++ [str "log_viewer: opening log file failed\n"] } ∧
    ∀ (m : GoString) (s : State),
      printError m s = { s with stdout := s.stdout ++ [str "log_viewer: " ++ m ++ str "\n"] } := by
  constructor
  · unfold viewLogs
    simp only [hopen, printError]
    have e : str "log_viewer: " ++ str "opening log file failed" ++ newLine
        = str "log_viewer: opening log file failed\n" := by decide
    rw [e]
  · intro m s
    rfl

theorem open_failure_witness :
    viewLogs ansi (fun _ => none) (str "missing.log") (str "diwef") ⟨3, 5, []⟩
      = some ⟨3, 5, [str "log_viewer: opening log file failed\n"]⟩ :=
  (open_failure ansi (fun _ => none) (str "missing.log") (str "diwef") ⟨3, 5, []⟩ rfl).1

/-- C14. The slice `line[1:len(line)-1]` is out of range, and `parseLog` panics, exactly
when the line has fewer than 2 bytes; for every line of 2 or more bytes `parseLog`
returns, either a `Log` or the error `"parsing log failed"`. -/
theorem parseLog_panics_iff (line : GoString) :
    (sliceString line 1 (line.length - 1) = none ↔ line.length < 2) ∧
    (parseLog line = none ↔ line.length < 2) ∧
    (2 ≤ line.length →
      (∃ log, parseLog line = some (.ok log)) ∨
      parseLog line = some (.error (str "parsing log failed"))) := by
  have hret : 2 ≤ line.length →
      (∃ log, parseLog line = some (.ok log)) ∨
      parseLog line = some (.error (str "parsing log failed")) := by
    intro h
    rw [parseLog_eq line h]
    split_ifs
    · exact Or.inl ⟨_, rfl⟩
    · exact Or.inr rfl
  refine ⟨⟨fun hn => ?_, sliceString_short line⟩, ⟨fun hn => ?_, parseLog_short line⟩, hret⟩
  · by_contra hc
    rw [sliceString_inner line (by omega)] at hn
    cases hn
  · by_contra hc
    rcases hret (by omega) with ⟨log, hl⟩ | he
    · rw [hn] at hl; cases hl
    · rw [hn] at he; cases he

theorem parseLog_panic_examples :
    parseLog (str "") = none ∧ parseLog (str "[") = none ∧
    parseLog (str "[]") = some (.error (str "parsing log failed")) ∧
    parseLog (str "[][][][]") = some (.ok ⟨str "", str "", str "", str ""⟩) := by
  decide

/-! ## A delimiter inside the message, and the width counters -/

theorem setPrefixColor_trim_examples :
    setPrefixColor ansi ⟨str "t", str " \tDebug  ", str "f", str "m"⟩
      = ⟨str "t", ansi.Cyan (str " \tDebug  "), str "f", str "m"⟩ ∧
    setPrefixColor ansi ⟨str "t", str "Fatal\u00a0", str "f", str "m"⟩
      = ⟨str "t", ansi.Red (str "Fatal\u00a0"), str "f", str "m"⟩ ∧
    setPrefixColor ansi ⟨str "t", str "debug", str "f", str "m"⟩
      = ⟨str "t", str "debug", str "f", str "m"⟩ := by
  decide

theorem genSplit_length_pos (s sep : GoString) (n : Nat) : 1 ≤ (genSplit s sep n).length := by
  cases n with
  | zero => simp [genSplit]
  | succ n =>
    simp only [genSplit]
    split <;> simp

theorem genSplit_length_two (s sep : GoString) (n m : Nat)
    (h : stringsIndex s sep = some m) : 2 ≤ (genSplit s sep (n + 1)).length := by
  simp only [genSplit, h, List.length_cons]
  have := genSplit_length_pos (s.drop (m + sep.length)) sep n
  omega

theorem bracketed_inner (ts sev caller msg : GoString) :
    List.dropLast (List.drop 1
      (str "[" ++ ts ++ str "][" ++ sev ++ str "][" ++ caller ++ str "][" ++ msg ++ str "]"))
      = ts ++ str "][" ++ sev ++ str "][" ++ caller ++ str "][" ++ msg := by
  have e1 : str "[" = [91] := by decide
  have e2 : str "]" = [93] := by decide
  rw [e1, e2]
  simp only [List.append_assoc, List.singleton_append, List.drop_succ_cons, List.drop_zero]
  simp only [← List.append_assoc]
  exact List.dropLast_concat

theorem stringsSplit_long_message (ts sev caller msg : GoString)
    (h1 : ¬ str "][" <:+: ts) (h2 : ¬ str "][" <:+: sev)
    (h3 : ¬ str "][" <:+: caller) (h4 : str "][" <:+: msg) :
    4 < (stringsSplit (ts ++ str "][" ++ sev ++ str "][" ++ caller ++ str "][" ++ msg)
      (str "][")).length := by
  have hm : ∃ m, stringsIndex msg (str "][") = some m := by
    cases hi : stringsIndex msg (str "][") with
    | none => exact absurd h4 ((stringsIndex_none_iff _ _).mp hi)
    | some m => exact ⟨m, rfl⟩
  obtain ⟨m, hm⟩ := hm
  have hlen : 2 ≤ msg.length := by
    have := h4.length_le
    rw [str_sep] at this
    simpa using this
  have i1 := index_none_of_not_contains (not_contains_of_not_substring h1)
  have i2 := index_none_of_not_contains (not_contains_of_not_substring h2)
  have i3 := index_none_of_not_contains (not_contains_of_not_substring h3)
  rw [str_sep] at *
  have e : ts ++ [93, 91] ++ sev ++ [93, 91] ++ caller ++ [93, 91] ++ msg
      = ts ++ 93 :: 91 :: (sev ++ 93 :: 91 :: (caller ++ 93 :: 91 :: msg)) := by simp
  obtain ⟨k, hk⟩ : ∃ k, (ts ++ [93, 91] ++ sev ++ [93, 91] ++ caller ++ [93, 91] ++ msg).length
      = k + 4 :=
    ⟨ts.length + sev.length + caller.length + (msg.length - 2) + 4, by simp; omega⟩
  unfold stringsSplit
  rw [hk, e, genSplit_sep_append _ _ _ i1, genSplit_sep_append _ _ _ i2,
    genSplit_sep_append _ _ _ i3]
  have := genSplit_length_two msg [93, 91] k m hm
  simp only [List.length_cons]
  omega

/-- C15. A message that contains the delimiter corrupts the split: when `ts`, `sev`,
`caller` do not contain `"]["` and `msg` does, the split of
`"[" + ts + "][" + sev + "][" + caller + "][" + msg + "]"` without its outer bytes has
more than 4 segments, `parseLog` rejects the line with `"parsing log failed"`, and so it
does not return the fields `(ts, sev, caller, msg)`. -/
theorem parseLog_delimiter_in_message (ts sev caller msg : GoString)
    (h1 : ¬ str "][" <:+: ts) (h2 : ¬ str "][" <:+: sev)
    (h3 : ¬ str "][" <:+: caller) (h4 : str "][" <:+: msg) :
    4 < (stringsSplit (List.dropLast (List.drop 1
      (str "[" ++ ts ++ str "][" ++ sev ++ str "][" ++ caller ++ str "][" ++ msg ++ str "]")))
      (str "][")).length ∧
    parseLog (str "[" ++ ts ++ str "][" ++ sev ++ str "][" ++ caller ++ str "][" ++ msg ++ str "]")
      = some (.error (str "parsing log failed")) ∧
    parseLog (str "[" ++ ts ++ str "][" ++ sev ++ str "][" ++ caller ++ str "][" ++ msg ++ str "]")
      ≠ some (.ok ⟨ts, sev, caller, msg⟩) := by
  have hlong := stringsSplit_long_message ts sev caller msg h1 h2 h3 h4
  have hlen : 2 ≤ (str "[" ++ ts ++ str "][" ++ sev ++ str "][" ++ caller ++ str "][" ++ msg
      ++ str "]").length := by
    have e1 : str "[" = [91] := by decide
    have e2 : str "]" = [93] := by decide
    rw [e1, e2]; simp; omega
  have herr : parseLog
      (str "[" ++ ts ++ str "][" ++ sev ++ str "][" ++ caller ++ str "][" ++ msg ++ str "]")
      = some (.error (str "parsing log failed")) := by
    rw [parseLog_eq _ hlen, bracketed_inner, if_neg (by omega)]
  refine ⟨?_, herr, ?_⟩
  · rw [bracketed_inner]; exact hlong
  · rw [herr]
    intro hc
    cases hc

theorem parseLog_delimiter_in_message_witness :
    4 < (stringsSplit (List.dropLast (List.drop 1 (str "[t][Info][main][a][b]")))
      (str "][")).length ∧
    parseLog (str "[t][Info][main][a][b]") = some (.error (str "parsing log failed")) ∧
    parseLog (str "[t][Info][main][a][b]")
      ≠ some (.ok ⟨str "t", str "Info", str "main", str "a][b"⟩) :=
  parseLog_delimiter_in_message (str "t") (str "Info") (str "main") (str "a][b")
    (by rw [← stringsContains_iff_substring]; decide)
    (by rw [← stringsContains_iff_substring]; decide)
    (by rw [← stringsContains_iff_substring]; decide)
    (by rw [← stringsContains_iff_substring]; decide)

theorem deferredClose_counters (logFile : File) (st : State) :
    (deferredClose logFile st).longestPrefixLength = st.longestPrefixLength ∧
    (deferredClose logFile st).longestCallerFunctionLength = st.longestCallerFunctionLength := by
  unfold deferredClose
  split <;> simp [printError]

/-- C16. Width state: when the scan of `viewLogs` ends without a parse failure,
`longestPrefixLength` is the maximal prefix length and `longestCallerFunctionLength` the
maximal caller length over the retained entries only (both 0 when nothing is retained),
whatever the two counters held before the call; the printing pass and the deferred
close leave them at these values. -/
theorem width_state (pal : Palette) (openFile : GoString → Option File)
    (filename prefixes : GoString) (st : State) (logFile : File) (entries : List Log)
    (hopen : openFile filename = some logFile)
    (hparse : logFile.lines.map parseLog = entries.map (fun e => some (Except.ok e))) :
    ∃ st1, scanLoop prefixes logFile.lines
        { st with longestPrefixLength := 0, longestCallerFunctionLength := 0 } []
        = some (.ok (st1, entries.filter (filterLog prefixes))) ∧
      st1.longestPrefixLength = (((entries.filter (filterLog prefixes)).map
        (fun l => l.prefix_.length)).foldr max 0 : Nat) ∧
      st1.longestCallerFunctionLength = (((entries.filter (filterLog prefixes)).map
        (fun l => l.callerFunction.length)).foldr max 0 : Nat) ∧
      (entries.filter (filterLog prefixes) = [] →
        st1.longestPrefixLength = 0 ∧ st1.longestCallerFunctionLength = 0) ∧
      ∃ st2, viewLogs pal openFile filename prefixes st = some st2 ∧
        st2.longestPrefixLength = st1.longestPrefixLength ∧
        st2.longestCallerFunctionLength = st1.longestCallerFunctionLength := by
  obtain ⟨st1, h1⟩ := scanLoop_retained prefixes logFile.lines entries
    { st with longestPrefixLength := 0, longestCallerFunctionLength := 0 } [] hparse
  rw [List.nil_append] at h1
  obtain ⟨_, hw1, hw2⟩ := scanLoop_widths prefixes _ st st1 _ h1
  obtain ⟨outs, h2, _⟩ := viewLoop_eq pal (entries.filter (filterLog prefixes)) st1
    (scanLoop_widths_le prefixes _ st st1 _ h1)
  refine ⟨st1, h1, hw1, hw2, ?_, ?_⟩
  · intro he
    rw [hw1, hw2, he]
    simp
  · refine ⟨deferredClose logFile { st1 with stdout := st1.stdout ++ outs }, ?_, ?_, ?_⟩
    · unfold viewLogs
      simp only [hopen, h1, h2]
    · exact (deferredClose_counters logFile _).1
    · exact (deferredClose_counters logFile _).2

theorem width_state_witness :
    ∃ st1, scanLoop (str "i")
        [str "[t1][Info][a][x]", str "[t2][Warning][main.Run][y]", str "[t3][Info][bc][z]"]
        { (⟨99, -5, []⟩ : State) with longestPrefixLength := 0, longestCallerFunctionLength := 0 }
        []
        = some (.ok (st1, List.filter (filterLog (str "i"))
          [⟨str "t1", str "Info", str "a", str "x"⟩,
            ⟨str "t2", str "Warning", str "main.Run", str "y"⟩,
            ⟨str "t3", str "Info", str "bc", str "z"⟩])) ∧
      st1.longestPrefixLength = ((List.map (fun l => l.prefix_.length)
        (List.filter (filterLog (str "i"))
          [(⟨str "t1", str "Info", str "a", str "x"⟩ : Log),
            ⟨str "t2", str "Warning", str "main.Run", str "y"⟩,
            ⟨str "t3", str "Info", str "bc", str "z"⟩])).foldr max 0 : Nat) ∧
      st1.longestCallerFunctionLength = ((List.map (fun l => l.callerFunction.length)
        (List.filter (filterLog (str "i"))
          [(⟨str "t1", str "Info", str "a", str "x"⟩ : Log),
            ⟨str "t2", str "Warning", str "main.Run", str "y"⟩,
            ⟨str "t3", str "Info", str "bc", str "z"⟩])).foldr max 0 : Nat) ∧
      (List.filter (filterLog (str "i"))
          [(⟨str "t1", str "Info", str "a", str "x"⟩ : Log),
            ⟨str "t2", str "Warning", str "main.Run", str "y"⟩,
            ⟨str "t3", str "Info", str "bc", str "z"⟩] = [] →
        st1.longestPrefixLength = 0 ∧ st1.longestCallerFunctionLength = 0) ∧
      ∃ st2, viewLogs ansi (fun _ => some ⟨[str "[t1][Info][a][x]",
          str "[t2][Warning][main.Run][y]", str "[t3][Info][bc][z]"], true⟩)
          (str "default.log") (str "i") ⟨99, -5, []⟩ = some st2 ∧
        st2.longestPrefixLength = st1.longestPrefixLength ∧
        st2.longestCallerFunctionLength = st1.longestCallerFunctionLength :=
  width_state ansi _ (str "default.log") (str "i") ⟨99, -5, []⟩
    ⟨[str "[t1][Info][a][x]", str "[t2][Warning][main.Run][y]", str "[t3][Info][bc][z]"],
      true⟩ _ rfl (by decide)

theorem final_counters_example :
    (viewLogs ansi (fun _ => some ⟨[str "[t1][Info][a][x]",
        str "[t2][Warning][main.Run][y]", str "[t3][Info][bc][z]"], false⟩)
        (str "default.log") (str "i") ⟨99, -5, []⟩).map
      (fun s => (s.longestPrefixLength, s.longestCallerFunctionLength)) = some (4, 2) := by
  decide

/-- C17. Padding never fails inside `viewLogs`: after the scan, for every retained entry
`longestPrefixLength - len(prefix)` and `longestCallerFunctionLength -
len(callerFunction)` are non-negative, so neither `strings.Repeat` call panics, both
setters return, and the whole printing loop returns. -/
theorem padding_never_panics (pal : Palette) (prefixes : GoString) (lines : List GoString)
    (st st1 : State) (logs : List Log)
    (hscan : scanLoop prefixes lines
      { st with longestPrefixLength := 0, longestCallerFunctionLength := 0 } []
        = some (.ok (st1, logs)))
    (l : Log) (hl : l ∈ logs) :
    0 ≤ st1.longestPrefixLength - l.prefix_.length ∧
    0 ≤ st1.longestCallerFunctionLength - l.callerFunction.length ∧
    (stringsRepeat (str " ") (st1.longestPrefixLength - l.prefix_.length)).isSome = true ∧
    (stringsRepeat (str " ")
      (st1.longestCallerFunctionLength - l.callerFunction.length)).isSome = true ∧
    (∃ l1, setPrefixLength st1 l = some l1 ∧
      ∃ l2, setCallerFunctionLength st1 l1 = some l2) ∧
    (∃ st2, viewLog pal l st1 = some st2) ∧
    ∃ st3, viewLoop pal logs st1 = some st3 := by
  have hall := scanLoop_widths_le prefixes lines st st1 logs hscan
  obtain ⟨hp, hc⟩ := hall l hl
  obtain ⟨outs, h2, _⟩ := viewLoop_eq pal logs st1 hall
  refine ⟨by omega, by omega, ?_, ?_, ?_, ⟨_, viewLog_eq pal l st1 hp hc⟩, ⟨_, h2⟩⟩
  · rw [stringsRepeat_space _ (by omega)]; rfl
  · rw [stringsRepeat_space _ (by omega)]; rfl
  · exact ⟨_, setPrefixLength_eq st1 l hp, _, setCallerFunctionLength_eq st1 _ hc⟩

theorem padding_never_panics_witness :
    (0 : Int) ≤ 7 - (str "Info").length ∧
    (0 : Int) ≤ 8 - (str "a").length ∧
    (stringsRepeat (str " ") (7 - (str "Info").length)).isSome = true ∧
    (stringsRepeat (str " ") (8 - (str "a").length)).isSome = true ∧
    (∃ l1, setPrefixLength ⟨8, 7, []⟩ ⟨str "t1", str "Info", str "a", str "x"⟩ = some l1 ∧
      ∃ l2, setCallerFunctionLength ⟨8, 7, []⟩ l1 = some l2) ∧
    (∃ st2, viewLog ansi ⟨str "t1", str "Info", str "a", str "x"⟩ ⟨8, 7, []⟩ = some st2) ∧
    ∃ st3, viewLoop ansi [⟨str "t1", str "Info", str "a", str "x"⟩,
      ⟨str "t3", str "Warning", str "main.Run", str "z"⟩] ⟨8, 7, []⟩ = some st3 :=
  padding_never_panics ansi (str "iw")
    [str "[t1][Info][a][x]", str "[t2][Debug][b][y]", str "[t3][Warning][main.Run][z]"]
    ⟨5, 9, []⟩ ⟨8, 7, []⟩ _ (by decide) ⟨str "t1", str "Info", str "a", str "x"⟩ (by decide)

theorem setPrefixLength_panic_example :
    setPrefixLength ⟨0, 3, []⟩ ⟨str "t", str "Info", str "f", str "m"⟩ = none ∧
    viewLog ansi ⟨str "t", str "Info", str "f", str "m"⟩ ⟨0, 4, []⟩ = none := by
  decide

theorem severity_length_le (name : GoString)
    (h : name ∈ [debugPrefix, infoPrefix, warningPrefix, errorPrefix, fatalPrefix]) :
    name.length ≤ 7 := by
  rcases severity_cases h with rfl | rfl | rfl | rfl | rfl <;> decide

theorem foldr_max_le_bound (xs : List Nat) (b : Nat) (h : ∀ x ∈ xs, x ≤ b) :
    xs.foldr max 0 ≤ b := by
  induction xs with
  | nil => simp
  | cons a t ih =>
    simp only [List.foldr_cons]
    exact max_le (h a (List.mem_cons_self _ _))
      (ih (fun x hx => h x (List.mem_cons_of_mem _ hx)))

theorem setPrefixColor_severity (pal : Palette) (log : Log)
    (h : stringsTrimSpace log.prefix_ ∈
      [debugPrefix, infoPrefix, warningPrefix, errorPrefix, fatalPrefix]) :
    ∃ C : GoString → GoString,
      (C = pal.Cyan ∨ C = pal.Green ∨ C = pal.Yellow ∨ C = pal.Red) ∧
      setPrefixColor pal log = { log with prefix_ := C log.prefix_ } := by
  rcases severity_cases h with h | h | h | h | h
  · refine ⟨pal.Cyan, Or.inl rfl, ?_⟩
    unfold setPrefixColor
    simp only [h, if_true]
  · refine ⟨pal.Green, Or.inr (Or.inl rfl), ?_⟩
    unfold setPrefixColor
    simp only [h]
    rw [if_neg (by decide), if_pos trivial]
  · refine ⟨pal.Yellow, Or.inr (Or.inr (Or.inl rfl)), ?_⟩
    unfold setPrefixColor
    simp only [h]
    rw [if_neg (by decide), if_neg (by decide), if_pos trivial]
  · refine ⟨pal.Red, Or.inr (Or.inr (Or.inr rfl)), ?_⟩
    unfold setPrefixColor
    simp only [h]
    rw [if_neg (by decide), if_neg (by decide), if_neg (by decide), if_pos trivial]
  · refine ⟨pal.Red, Or.inr (Or.inr (Or.inr rfl)), ?_⟩
    unfold setPrefixColor
    simp only [h]
    rw [if_neg (by decide), if_neg (by decide), if_neg (by decide), if_neg (by decide),
      if_pos trivial]

/-- C18. Every line printed by `viewLogs` has a coloured severity: for every retained
entry the prefix is one of the five severity names, the padded prefix trims back to that
name, so `setPrefixColor` takes one of its colour cases (`Cyan`, `Green`, `Yellow` or
`Red` applied to the padded prefix) and never its fall-through; the padded width, which
is `longestPrefixLength`, is at most 7. -/
theorem severity_always_coloured (pal : Palette) (prefixes : GoString)
    (lines : List GoString) (st st1 : State) (logs : List Log)
    (hscan : scanLoop prefixes lines
      { st with longestPrefixLength := 0, longestCallerFunctionLength := 0 } []
        = some (.ok (st1, logs)))
    (l : Log) (hl : l ∈ logs) :
    l.prefix_ ∈ [debugPrefix, infoPrefix, warningPrefix, errorPrefix, fatalPrefix] ∧
    st1.longestPrefixLength ≤ 7 ∧
    ∃ p c : GoString,
      setPrefixLength st1 l = some { l with prefix_ := p } ∧
      setCallerFunctionLength st1 { l with prefix_ := p }
        = some { l with prefix_ := p, callerFunction := c } ∧
      stringsTrimSpace p = l.prefix_ ∧
      (p.length : Int) = st1.longestPrefixLength ∧
      p.length ≤ 7 ∧
      ∃ C : GoString → GoString,
        (C = pal.Cyan ∨ C = pal.Green ∨ C = pal.Yellow ∨ C = pal.Red) ∧
        setPrefixColor pal { l with prefix_ := p, callerFunction := c }
          = { l with prefix_ := C p, callerFunction := c } := by
  have hsev : ∀ e ∈ logs, e.prefix_ ∈
      [debugPrefix, infoPrefix, warningPrefix, errorPrefix, fatalPrefix] := fun e he =>
    filterLog_severity prefixes e (scanLoop_retained_mem prefixes lines _ st1 logs hscan e he)
  obtain ⟨_, hw1, _⟩ := scanLoop_widths prefixes lines st st1 logs hscan
  obtain ⟨hp, hc⟩ := scanLoop_widths_le prefixes lines st st1 logs hscan l hl
  have h7 : st1.longestPrefixLength ≤ 7 := by
    rw [hw1]
    have := foldr_max_le_bound (logs.map (fun e => e.prefix_.length)) 7 (by
      intro x hx
      obtain ⟨e, he, rfl⟩ := List.mem_map.mp hx
      exact severity_length_le _ (hsev e he))
    exact_mod_cast this
  have hlen : ((l.prefix_ ++ List.replicate
      (st1.longestPrefixLength - l.prefix_.length).toNat 32).length : Int)
      = st1.longestPrefixLength := by
    simp only [List.length_append, List.length_replicate]
    omega
  have htrim := stringsTrimSpace_severity l.prefix_
    (st1.longestPrefixLength - l.prefix_.length).toNat (hsev l hl)
  refine ⟨hsev l hl, h7, _, _, setPrefixLength_eq st1 l hp,
    setCallerFunctionLength_eq st1 _ hc, htrim, hlen, by omega, ?_⟩
  exact setPrefixColor_severity pal _ (by rw [htrim]; exact hsev l hl)

theorem severity_always_coloured_witness :
    str "Info" ∈ [debugPrefix, infoPrefix, warningPrefix, errorPrefix, fatalPrefix] ∧
    (7 : Int) ≤ 7 ∧
    ∃ p c : GoString,
      setPrefixLength ⟨8, 7, []⟩ ⟨str "t1", str "Info", str "a", str "x"⟩
        = some { (⟨str "t1", str "Info", str "a", str "x"⟩ : Log) with prefix_ := p } ∧
      setCallerFunctionLength ⟨8, 7, []⟩
          { (⟨str "t1", str "Info", str "a", str "x"⟩ : Log) with prefix_ := p }
        = some { (⟨str "t1", str "Info", str "a", str "x"⟩ : Log) with
            prefix_ := p, callerFunction := c } ∧
      stringsTrimSpace p = str "Info" ∧
      (p.length : Int) = 7 ∧
      p.length ≤ 7 ∧
      ∃ C : GoString → GoString,
        (C = ansi.Cyan ∨ C = ansi.Green ∨ C = ansi.Yellow ∨ C = ansi.Red) ∧
        setPrefixColor ansi { (⟨str "t1", str "Info", str "a", str "x"⟩ : Log) with
            prefix_ := p, callerFunction := c }
          = { (⟨str "t1", str "Info", str "a", str "x"⟩ : Log) with
            prefix_ := C p, callerFunction := c } :=
  severity_always_coloured ansi (str "iw")
    [str "[t1][Info][a][x]", str "[t2][Debug][b][y]", str "[t3][Warning][main.Run][z]"]
    ⟨5, 9, []⟩ ⟨8, 7, []⟩
    [⟨str "t1", str "Info", str "a", str "x"⟩,
      ⟨str "t3", str "Warning", str "main.Run", str "z"⟩]
    (by decide) ⟨str "t1", str "Info", str "a", str "x"⟩ (by decide)

/-! ## The reader -/

theorem takeWhile_take_line (l r : GoString) (k : Nat) (hl : (10 : UInt8) ∉ l)
    (hk : l.length < k) :
    List.takeWhile (fun b => b != 10) (List.take k (l ++ 10 :: r)) = l := by
  have h1 : List.take k (l ++ 10 :: r) = l ++ 10 :: List.take (k - l.length - 1) r := by
    rw [List.take_append_eq_append_take, List.take_of_length_le (by omega)]
    obtain ⟨m, hm⟩ : ∃ m, k - l.length = m + 1 := ⟨k - l.length - 1, by omega⟩
    rw [hm, List.take_succ_cons]
    simp
  rw [h1, List.takeWhile_append_of_pos]
  · simp
  · intro a ha
    have : a ≠ 10 := fun h => hl (h ▸ ha)
    simpa using this

theorem takeWhile_no_newline (l : GoString) (hl : (10 : UInt8) ∉ l) :
    List.takeWhile (fun b => b != 10) l = l := by
  rw [List.takeWhile_eq_self_iff]
  intro a ha
  have : a ≠ 10 := fun h => hl (h ▸ ha)
  simpa using this

theorem readLine_nil : readLine [] = none := by
  simp [readLine]

theorem readLine_line (l r : GoString) (hl : (10 : UInt8) ∉ l)
    (hk : l.length < defaultBufSize) :
    readLine (l ++ 10 :: r) = some (dropCR l, r) := by
  have hne : l ++ 10 :: r ≠ [] := by simp
  have hlen : l.length < (List.take defaultBufSize (l ++ 10 :: r)).length := by
    simp only [List.length_take, List.length_append, List.length_cons]
    omega
  unfold readLine
  rw [if_neg hne]
  simp only [takeWhile_take_line l r defaultBufSize hl hk]
  rw [if_pos hlen]
  simp

theorem readLine_tail (t : GoString) (hne : t ≠ []) (hl : (10 : UInt8) ∉ t)
    (hk : t.length < defaultBufSize) :
    readLine t = some (t, []) := by
  unfold readLine
  rw [if_neg hne]
  simp only [List.take_of_length_le (Nat.le_of_lt hk), takeWhile_no_newline t hl]
  rw [if_neg (by omega), if_neg (by omega)]

/-- In a file in which no line is longer than the buffer, `ReadLine` returns the lines of
the file: the texts before each `'\\n'` without a `'\\r'` at their end, and the text
after the last `'\\n'` if there is one. -/
theorem readLines_of_lines (tail : GoString) (ht : (10 : UInt8) ∉ tail)
    (htk : tail.length < defaultBufSize) :
    ∀ (lines : List GoString) (n : Nat),
      (∀ l ∈ lines, (10 : UInt8) ∉ l ∧ l.length < defaultBufSize) →
      ((lines.map (fun l => l ++ str "\n")).flatten ++ tail).length ≤ n →
      readLines n ((lines.map (fun l => l ++ str "\n")).flatten ++ tail)
        = lines.map dropCR ++ (if tail = [] then [] else [tail]) := by
  have enl : str "\n" = [10] := by decide
  intro lines
  induction lines with
  | nil =>
    intro n _ hn
    simp only [List.map_nil, List.flatten_nil, List.nil_append] at hn ⊢
    by_cases hnil : tail = []
    · subst hnil
      cases n <;> simp [readLines, readLine_nil]
    · obtain ⟨m, rfl⟩ : ∃ m, n = m + 1 :=
        ⟨n - 1, by have := List.length_pos.mpr hnil; omega⟩
      rw [if_neg hnil]
      simp only [readLines, readLine_tail tail hnil ht htk]
      cases m <;> simp [readLines, readLine_nil]
  | cons l ls ih =>
    intro n hall hn
    have hl := hall l (List.mem_cons_self _ _)
    have e : (List.map (fun l => l ++ str "\n") (l :: ls)).flatten ++ tail
        = l ++ 10 :: ((List.map (fun l => l ++ str "\n") ls).flatten ++ tail) := by
      simp [enl]
    rw [e] at hn ⊢
    obtain ⟨m, rfl⟩ : ∃ m, n = m + 1 := ⟨n - 1, by simp at hn; omega⟩
    simp only [readLines, readLine_line l _ hl.1 hl.2, List.map_cons, List.cons_append]
    rw [ih m (fun x hx => hall x (List.mem_cons_of_mem _ hx))
      (by simp at hn ⊢; omega)]

theorem openedFile_lines (lines : List GoString) (tail : GoString) (closeFails : Bool)
    (hlines : ∀ l ∈ lines, (10 : UInt8) ∉ l ∧ l.length < defaultBufSize)
    (htail : (10 : UInt8) ∉ tail ∧ tail.length < defaultBufSize) :
    openedFile ((lines.map (fun l => l ++ str "\n")).flatten ++ tail) closeFails
      = ⟨lines.map dropCR ++ (if tail = [] then [] else [tail]), closeFails⟩ := by
  unfold openedFile
  rw [readLines_of_lines tail htail.1 htail.2 lines _ hlines (le_refl _)]

/-! ## Whole runs -/

theorem deferredClose_stdout (logFile : File) (st : State) :
    (deferredClose logFile st).stdout = st.stdout ++
      (if logFile.closeFails then [str "log_viewer: closing log file failed\n"] else []) := by
  have e : str "log_viewer: " ++ str "closing log file failed" ++ newLine
      = str "log_viewer: closing log file failed\n" := by decide
  unfold deferredClose
  split
  · simp [printError, e]
  · simp

/-- A run on a file all of whose texts parse: one printed text for each retained entry,
in order, then the report of a failed close. -/
theorem viewLogs_all_parse (pal : Palette) (openFile : GoString → Option File)
    (filename prefixes : GoString) (st : State) (logFile : File) (entries : List Log)
    (hopen : openFile filename = some logFile)
    (hparse : logFile.lines.map parseLog = entries.map (fun e => some (Except.ok e))) :
    ∃ st1 outs, viewLogs pal openFile filename prefixes st = some st1 ∧
      st1.stdout = st.stdout ++ outs ++
        (if logFile.closeFails then [str "log_viewer: closing log file failed\n"] else []) ∧
      outs.length = (entries.filter (filterLog prefixes)).length ∧
      List.Forall₂ (fun l o => viewLog pal l { st1 with stdout := [] }
        = some { st1 with stdout := [o] }) (entries.filter (filterLog prefixes)) outs := by
  obtain ⟨st2, h1⟩ := scanLoop_retained prefixes logFile.lines entries
    { st with longestPrefixLength := 0, longestCallerFunctionLength := 0 } [] hparse
  rw [List.nil_append] at h1
  have hw := scanLoop_widths prefixes _ st st2 _ h1
  obtain ⟨outs, h2, h3⟩ := viewLoop_eq pal (entries.filter (filterLog prefixes)) st2
    (scanLoop_widths_le prefixes _ st st2 _ h1)
  have hc := deferredClose_counters logFile { st2 with stdout := st2.stdout ++ outs }
  refine ⟨deferredClose logFile { st2 with stdout := st2.stdout ++ outs }, outs, ?_, ?_,
    h3.length_eq.symm, ?_⟩
  · unfold viewLogs
    simp only [hopen, h1, h2]
  · rw [deferredClose_stdout, hw.1]
  · rw [hc.1, hc.2]
    exact h3

/-- A run on a file in which a text fails to parse after texts that parse: the parse
error is the only text printed before the report of a failed close. -/
theorem viewLogs_parse_error (pal : Palette) (openFile : GoString → Option File)
    (filename prefixes : GoString) (st : State) (logFile : File)
    (pre : List GoString) (bad : GoString) (post : List GoString) (entries : List Log)
    (hopen : openFile filename = some logFile)
    (hlines : logFile.lines = pre ++ bad :: post)
    (hpre : pre.map parseLog = entries.map (fun e => some (Except.ok e)))
    (hlen : 2 ≤ bad.length)
    (hbad : (stringsSplit (bad.drop 1).dropLast (str "][")).length ≠ 4) :
    ∃ st1, viewLogs pal openFile filename prefixes st = some st1 ∧
      st1.stdout = st.stdout ++ [str "log_viewer: parsing log failed\n"] ++
        (if logFile.closeFails then [str "log_viewer: closing log file failed\n"] else []) := by
  have hb : parseLog bad = some (.error (str "parsing log failed")) := by
    rw [parseLog_eq bad hlen, if_neg hbad]
  obtain ⟨st2, h1, h2⟩ := scanLoop_parse_error prefixes bad _ post hb pre entries
    { st with longestPrefixLength := 0, longestCallerFunctionLength := 0 } [] hpre
  refine ⟨deferredClose logFile (printError (str "parsing log failed") st2), ?_, ?_⟩
  · unfold viewLogs
    simp only [hopen, hlines, h1]
  · rw [deferredClose_stdout]
    simp only [printError, h2]
    rfl

/-! ## `strings.TrimSpace` removes the white space around a text -/

theorem spaceEncodings_ne_nil : ∀ w ∈ spaceEncodings, w ≠ [] := by decide

theorem spaceEncodings_prefix_free :
    ∀ x ∈ spaceEncodings, ∀ y ∈ spaceEncodings, x.isPrefixOf y = true → x = y := by decide

theorem spaceEncodings_suffix_free :
    ∀ x ∈ spaceEncodings, ∀ y ∈ spaceEncodings, x.isSuffixOf y = true → x = y := by decide

theorem find_unique (p : GoString → Bool) (a : GoString) :
    ∀ l : List GoString, a ∈ l → p a = true → (∀ x ∈ l, p x = true → x = a) →
      l.find? p = some a := by
  intro l
  induction l with
  | nil => intro h; cases h
  | cons b t ih =>
    intro hmem hp huniq
    by_cases hb : p b = true
    · have := huniq b (List.mem_cons_self _ _) hb
      subst this
      simp [List.find?, hb]
    · have hne : b ≠ a := fun h => hb (h ▸ hp)
      have hmem2 : a ∈ t := by
        rcases List.mem_cons.mp hmem with h | h
        · exact absurd h.symm hne
        · exact h
      have hb2 : p b = false := by simpa using hb
      simp only [List.find?, hb2]
      exact ih hmem2 hp (fun x hx => huniq x (List.mem_cons_of_mem _ hx))

theorem find_lead (w r : GoString) (hw : w ∈ spaceEncodings) :
    spaceEncodings.find? (fun x => x.isPrefixOf (w ++ r)) = some w := by
  apply find_unique _ w _ hw
  · exact List.isPrefixOf_iff_prefix.mpr (List.prefix_append w r)
  · intro x hx hp
    have h1 : x <+: w ++ r := List.isPrefixOf_iff_prefix.mp hp
    rcases List.prefix_or_prefix_of_prefix h1 (List.prefix_append w r) with h | h
    · exact spaceEncodings_prefix_free x hx w hw (List.isPrefixOf_iff_prefix.mpr h)
    · exact (spaceEncodings_prefix_free w hw x hx (List.isPrefixOf_iff_prefix.mpr h)).symm

theorem find_trail (w r : GoString) (hw : w ∈ spaceEncodings) :
    spaceEncodings.find? (fun x => x.isSuffixOf (r ++ w)) = some w := by
  apply find_unique _ w _ hw
  · exact List.isSuffixOf_iff_suffix.mpr (List.suffix_append r w)
  · intro x hx hp
    have h1 : x <:+ r ++ w := List.isSuffixOf_iff_suffix.mp hp
    rcases List.suffix_or_suffix_of_suffix h1 (List.suffix_append r w) with h | h
    · exact spaceEncodings_suffix_free x hx w hw (List.isSuffixOf_iff_suffix.mpr h)
    · exact (spaceEncodings_suffix_free w hw x hx (List.isSuffixOf_iff_suffix.mpr h)).symm

theorem find_head_none (s : GoString)
    (hhead : ∀ w ∈ spaceEncodings, w.head? ≠ s.head?) :
    spaceEncodings.find? (fun x => x.isPrefixOf s) = none := by
  rw [List.find?_eq_none]
  intro w hw hp
  have h1 : w <+: s := List.isPrefixOf_iff_prefix.mp (by simpa using hp)
  obtain ⟨t, rfl⟩ := h1
  have hne := spaceEncodings_ne_nil w hw
  apply hhead w hw
  cases w with
  | nil => exact absurd rfl hne
  | cons a u => rfl

theorem find_last_none (s : GoString)
    (hlast : ∀ w ∈ spaceEncodings, w.getLast? ≠ s.getLast?) :
    spaceEncodings.find? (fun x => x.isSuffixOf s) = none := by
  rw [List.find?_eq_none]
  intro w hw hp
  have h1 : w <:+ s := List.isSuffixOf_iff_suffix.mp (by simpa using hp)
  obtain ⟨t, rfl⟩ := h1
  have hne := spaceEncodings_ne_nil w hw
  apply hlast w hw
  rw [List.getLast?_append_of_ne_nil _ hne]

theorem trimLeftSpace_lead (rest : GoString)
    (hrest : spaceEncodings.find? (fun x => x.isPrefixOf rest) = none) :
    ∀ (lead : List GoString) (n : Nat), (∀ w ∈ lead, w ∈ spaceEncodings) → lead.length ≤ n →
      trimLeftSpace n (lead.flatten ++ rest) = rest := by
  intro lead
  induction lead with
  | nil =>
    intro n _ _
    simpa using trimLeftSpace_of_find_none n rest hrest
  | cons w ws ih =>
    intro n hall hn
    obtain ⟨m, rfl⟩ : ∃ m, n = m + 1 := ⟨n - 1, by simp at hn; omega⟩
    have hw := hall w (List.mem_cons_self _ _)
    simp only [List.flatten_cons, List.append_assoc, trimLeftSpace, find_lead w _ hw,
      List.drop_left]
    exact ih m (fun x hx => hall x (List.mem_cons_of_mem _ hx)) (by simp at hn; omega)

theorem trimRightSpace_trail (rest : GoString)
    (hrest : spaceEncodings.find? (fun x => x.isSuffixOf rest) = none) :
    ∀ (trail : List GoString) (n : Nat), (∀ w ∈ trail, w ∈ spaceEncodings) →
      trail.length ≤ n → trimRightSpace n (rest ++ trail.flatten) = rest := by
  intro trail
  induction trail using List.reverseRecOn with
  | nil =>
    intro n _ _
    simpa using trimRightSpace_of_find_none n rest hrest
  | append_singleton ws w ih =>
    intro n hall hn
    obtain ⟨m, rfl⟩ : ∃ m, n = m + 1 := ⟨n - 1, by simp at hn; omega⟩
    have hw := hall w (by simp)
    have e : rest ++ (ws ++ [w]).flatten = (rest ++ ws.flatten) ++ w := by simp
    rw [e]
    simp only [trimRightSpace, find_trail w _ hw]
    have e2 : List.take ((rest ++ ws.flatten ++ w).length - w.length) (rest ++ ws.flatten ++ w)
        = rest ++ ws.flatten := by
      rw [List.length_append, Nat.add_sub_cancel, List.take_left']
      rfl
    rw [e2]
    exact ih m (fun x hx => hall x (by simp [hx])) (by simp at hn; omega)

theorem flatten_length_ge (ws : List GoString) (h : ∀ w ∈ ws, w ∈ spaceEncodings) :
    ws.length ≤ ws.flatten.length := by
  induction ws with
  | nil => simp
  | cons w t ih =>
    have hw := spaceEncodings_ne_nil w (h w (List.mem_cons_self _ _))
    have := List.length_pos.mpr hw
    have := ih (fun x hx => h x (List.mem_cons_of_mem _ hx))
    simp only [List.flatten_cons, List.length_append, List.length_cons]
    omega

/-- The text between leading and trailing white space is what `strings.TrimSpace`
returns, when that text does not itself begin or end with white space. -/
theorem stringsTrimSpace_core (lead trail : List GoString) (core : GoString)
    (hlead : ∀ w ∈ lead, w ∈ spaceEncodings) (htrail : ∀ w ∈ trail, w ∈ spaceEncodings)
    (hhead : ∀ w ∈ spaceEncodings, w.head? ≠ core.head?)
    (hlast : ∀ w ∈ spaceEncodings, w.getLast? ≠ core.getLast?) :
    stringsTrimSpace (lead.flatten ++ core ++ trail.flatten) = core := by
  have h1 := flatten_length_ge lead hlead
  have h2 := flatten_length_ge trail htrail
  by_cases hc : core = []
  · subst hc
    have hall : ∀ w ∈ lead ++ trail, w ∈ spaceEncodings := fun w hw =>
      (List.mem_append.mp hw).elim (hlead w) (htrail w)
    have e : lead.flatten ++ [] ++ trail.flatten = (lead ++ trail).flatten ++ [] := by simp
    have hleft : trimLeftSpace (lead.flatten ++ [] ++ trail.flatten).length
        (lead.flatten ++ [] ++ trail.flatten) = [] := by
      rw [e]
      exact trimLeftSpace_lead [] (find_head_none [] hhead) (lead ++ trail) _ hall
        (by rw [List.append_nil]; exact flatten_length_ge _ hall)
    show trimRightSpace (trimLeftSpace _ _).length (trimLeftSpace _ _) = []
    rw [hleft]
    rfl
  · have hL : spaceEncodings.find? (fun x => x.isPrefixOf (core ++ trail.flatten)) = none := by
      apply find_head_none
      intro w hw
      rw [List.head?_append_of_ne_nil _ hc]
      exact hhead w hw
    have hleft : trimLeftSpace (lead.flatten ++ core ++ trail.flatten).length
        (lead.flatten ++ core ++ trail.flatten) = core ++ trail.flatten := by
      rw [List.append_assoc]
      exact trimLeftSpace_lead _ hL lead _ hlead (by simp only [List.length_append]; omega)
    show trimRightSpace (trimLeftSpace _ _).length (trimLeftSpace _ _) = core
    rw [hleft]
    exact trimRightSpace_trail core (find_last_none core hlast) trail _ htrail
      (by simp only [List.length_append]; omega)

/-! ## Claims about whole runs, on a file given by its content -/

/-- C4 (as stated, refuted). The entry of the line `[t][Info][f][m]` has the prefix
`Info` and the filter `"diwef"` contains `i`, so it passes the test and is appended to
`logs`; but the next line `[a][b]` fails to parse and the run prints only
`"log_viewer: parsing log failed"`: the entry is retained and never printed. -/
theorem retained_entry_not_printed :
    parseLog (str "[t][Info][f][m]") = some (.ok ⟨str "t", str "Info", str "f", str "m"⟩) ∧
    filterLog (str "diwef") ⟨str "t", str "Info", str "f", str "m"⟩ = true ∧
    viewLogs ansi (fun _ => some (openedFile (str "[t][Info][f][m]\n[a][b]\n") false))
        (str "default.log") (str "diwef") ⟨0, 0, []⟩
      = some ⟨1, 4, [str "log_viewer: parsing log failed\n"]⟩ := by
  decide

/-- C4 (amended). In the scan of `viewLogs`, a parsed entry is retained (appended to
`logs`) exactly when its prefix is one of `Debug`, `Info`, `Warning`, `Error`, `Fatal`
and the filter string contains the letter `d`, `i`, `w`, `e`, `f` of that severity; the
retained entries are the parsed entries that pass this test, whatever stands before or
after them. The retained entries are printed, in order, when every text read from the
file parses; when a later text of at least 2 bytes does not split into 4 segments, the
run prints the parse error and no retained entry. In both cases a failed close adds its
report as the last line. -/
theorem filter_retains (prefixes : GoString) (lines : List GoString) (entries : List Log)
    (st : State) (logs : List Log)
    (hparse : lines.map parseLog = entries.map (fun e => some (Except.ok e))) :
    (∀ log : Log, filterLog prefixes log = true ↔
      (log.prefix_ = debugPrefix ∧ str "d" <:+: prefixes) ∨
      (log.prefix_ = infoPrefix ∧ str "i" <:+: prefixes) ∨
      (log.prefix_ = warningPrefix ∧ str "w" <:+: prefixes) ∨
      (log.prefix_ = errorPrefix ∧ str "e" <:+: prefixes) ∨
      (log.prefix_ = fatalPrefix ∧ str "f" <:+: prefixes)) ∧
    (∃ st1, scanLoop prefixes lines st logs
      = some (.ok (st1, logs ++ entries.filter (filterLog prefixes)))) ∧
    (∀ (pal : Palette) (openFile : GoString → Option File) (filename : GoString)
      (st0 : State) (closeFails : Bool),
      openFile filename = some ⟨lines, closeFails⟩ →
      ∃ st2 outs, viewLogs pal openFile filename prefixes st0 = some st2 ∧
        st2.stdout = st0.stdout ++ outs ++
          (if closeFails then [str "log_viewer: closing log file failed\n"] else []) ∧
        List.Forall₂ (fun l o => viewLog pal l { st2 with stdout := [] }
          = some { st2 with stdout := [o] }) (entries.filter (filterLog prefixes)) outs) ∧
    (∀ (pal : Palette) (openFile : GoString → Option File) (filename : GoString)
      (st0 : State) (closeFails : Bool) (bad : GoString) (post : List GoString),
      2 ≤ bad.length → (stringsSplit (bad.drop 1).dropLast (str "][")).length ≠ 4 →
      openFile filename = some ⟨lines ++ bad :: post, closeFails⟩ →
      ∃ st2, viewLogs pal openFile filename prefixes st0 = some st2 ∧
        st2.stdout = st0.stdout ++ [str "log_viewer: parsing log failed\n"] ++
          (if closeFails then [str "log_viewer: closing log file failed\n"] else [])) := by
  refine ⟨filterLog_iff prefixes, scanLoop_retained prefixes lines entries st logs hparse,
    ?_, ?_⟩
  · intro pal openFile filename st0 closeFails hopen
    obtain ⟨st2, outs, h1, h2, _, h4⟩ := viewLogs_all_parse pal openFile filename prefixes
      st0 ⟨lines, closeFails⟩ entries hopen hparse
    exact ⟨st2, outs, h1, h2, h4⟩
  · intro pal openFile filename st0 closeFails bad post hlen hbad hopen
    exact viewLogs_parse_error pal openFile filename prefixes st0
      ⟨lines ++ bad :: post, closeFails⟩ lines bad post entries hopen rfl hparse hlen hbad

theorem filter_retains_witness :
    ∃ st1, scanLoop (str "wd")
        [str "[t1][Info][a][x]", str "[t2][Debug][b][y]", str "[t3][debug][c][z]",
          str "[t4][Warning][d][w]"] ⟨0, 0, []⟩ []
      = some (.ok (st1, [] ++ List.filter (filterLog (str "wd"))
          [⟨str "t1", str "Info", str "a", str "x"⟩, ⟨str "t2", str "Debug", str "b", str "y"⟩,
            ⟨str "t3", str "debug", str "c", str "z"⟩,
            ⟨str "t4", str "Warning", str "d", str "w"⟩])) :=
  (filter_retains (str "wd") _ _ ⟨0, 0, []⟩ [] (by decide)).2.1

/-- C5 (as stated, refuted). Both lines of the file parse and both entries are retained,
but closing the file fails and the run prints three lines: the two formatted entries and
`"log_viewer: closing log file failed"`. -/
theorem close_failure_third_line :
    (viewLogs ansi
        (fun _ => some (openedFile (str "[t1][Info][a][x]\n[t2][Debug][b][y]\n") true))
        (str "default.log") (str "diwef") ⟨0, 0, []⟩).map (fun s => s.stdout)
      = some [str "[t1][\x1b[32mInfo \x1b[0m][\x1b[35ma\x1b[0m]x\n",
          str "[t2][\x1b[36mDebug\x1b[0m][\x1b[35mb\x1b[0m]y\n",
          str "log_viewer: closing log file failed\n"] ∧
    (List.filter (filterLog (str "diwef"))
      [⟨str "t1", str "Info", str "a", str "x"⟩,
        ⟨str "t2", str "Debug", str "b", str "y"⟩]).length = 2 := by
  decide

/-- C5 (amended). For a file in which no line is longer than the buffer of the reader
(fewer than 4096 bytes before each newline and after the last one) and every line
parses, `viewLogs` prints one line for each retained entry, in file order: the number of
these lines is the number of retained entries and the k-th is what `viewLog` prints for
the k-th retained entry. After them it prints `"log_viewer: closing log file failed"`
exactly when closing the file fails, and nothing else. A line is the text before a
newline, without a carriage return at its end, or the text after the last newline. -/
theorem viewLogs_prints_retained (pal : Palette) (openFile : GoString → Option File)
    (filename prefixes : GoString) (st : State) (lines : List GoString) (tail : GoString)
    (closeFails : Bool) (entries : List Log)
    (hopen : openFile filename = some
      (openedFile ((lines.map (fun l => l ++ str "\n")).flatten ++ tail) closeFails))
    (hlines : ∀ l ∈ lines, (10 : UInt8) ∉ l ∧ l.length < defaultBufSize)
    (htail : (10 : UInt8) ∉ tail ∧ tail.length < defaultBufSize)
    (hparse : (lines.map dropCR ++ (if tail = [] then [] else [tail])).map parseLog
      = entries.map (fun e => some (Except.ok e))) :
    ∃ st1 outs, viewLogs pal openFile filename prefixes st = some st1 ∧
      st1.stdout = st.stdout ++ outs ++
        (if closeFails then [str "log_viewer: closing log file failed\n"] else []) ∧
      outs.length = (entries.filter (filterLog prefixes)).length ∧
      List.Forall₂ (fun l o => viewLog pal l { st1 with stdout := [] }
        = some { st1 with stdout := [o] }) (entries.filter (filterLog prefixes)) outs := by
  rw [openedFile_lines lines tail closeFails hlines htail] at hopen
  exact viewLogs_all_parse pal openFile filename prefixes st _ entries hopen hparse

theorem viewLogs_prints_retained_witness :
    ∃ st1 outs, viewLogs ansi
        (fun _ => some (openedFile (List.flatten (List.map (fun l => l ++ str "\n")
          [str "[t1][Info][a][x]", str "[t2][Debug][main.Run][y]\r"])
          ++ str "[t3][Warning][c][z]") true))
        (str "default.log") (str "iw") ⟨0, 0, []⟩ = some st1 ∧
      st1.stdout = [] ++ outs ++
        (if true = true then [str "log_viewer: closing log file failed\n"] else []) ∧
      outs.length = (List.filter (filterLog (str "iw"))
        [⟨str "t1", str "Info", str "a", str "x"⟩,
          ⟨str "t2", str "Debug", str "main.Run", str "y"⟩,
          ⟨str "t3", str "Warning", str "c", str "z"⟩]).length ∧
      List.Forall₂ (fun l o => viewLog ansi l { st1 with stdout := [] }
        = some { st1 with stdout := [o] })
        (List.filter (filterLog (str "iw"))
          [⟨str "t1", str "Info", str "a", str "x"⟩,
            ⟨str "t2", str "Debug", str "main.Run", str "y"⟩,
            ⟨str "t3", str "Warning", str "c", str "z"⟩]) outs :=
  viewLogs_prints_retained ansi _ (str "default.log") (str "iw") ⟨0, 0, []⟩
    [str "[t1][Info][a][x]", str "[t2][Debug][main.Run][y]\r"] (str "[t3][Warning][c][z]")
    true _ rfl (by decide) (by decide) (by decide)

/-- C7 (as stated, refuted). The only line of the file is `[a][b]`, which does not split
into 4 segments; closing the file fails, and the run prints two lines, the parse error
and `"log_viewer: closing log file failed"`, not exactly one. -/
theorem parse_failure_second_line :
    viewLogs ansi (fun _ => some (openedFile (str "[a][b]\n") true))
        (str "default.log") (str "diwef") ⟨0, 0, []⟩
      = some ⟨0, 0, [str "log_viewer: parsing log failed\n",
          str "log_viewer: closing log file failed\n"]⟩ := by
  decide

/-- C7 (amended). Fail-fast: for a file in which no line is longer than the buffer of
the reader (fewer than 4096 bytes before each newline and after the last one), when a
line of at least 2 bytes does not split into exactly 4 segments and all lines before it
parse, `viewLogs` prints `"log_viewer: parsing log failed"` and a newline and no
formatted entry, whatever the filter and the earlier lines; after it comes
`"log_viewer: closing log file failed"` exactly when closing the file fails, and nothing
else. -/
theorem parse_failure_fail_fast (pal : Palette) (openFile : GoString → Option File)
    (filename prefixes : GoString) (st : State) (lines : List GoString) (tail : GoString)
    (closeFails : Bool) (pre : List GoString) (bad : GoString) (post : List GoString)
    (entries : List Log)
    (hopen : openFile filename = some
      (openedFile ((lines.map (fun l => l ++ str "\n")).flatten ++ tail) closeFails))
    (hlines : ∀ l ∈ lines, (10 : UInt8) ∉ l ∧ l.length < defaultBufSize)
    (htail : (10 : UInt8) ∉ tail ∧ tail.length < defaultBufSize)
    (hsplit : lines.map dropCR ++ (if tail = [] then [] else [tail]) = pre ++ bad :: post)
    (hpre : pre.map parseLog = entries.map (fun e => some (Except.ok e)))
    (hlen : 2 ≤ bad.length)
    (hbad : (stringsSplit (bad.drop 1).dropLast (str "][")).length ≠ 4) :
    ∃ st1, viewLogs pal openFile filename prefixes st = some st1 ∧
      st1.stdout = st.stdout ++ [str "log_viewer: parsing log failed\n"] ++
        (if closeFails then [str "log_viewer: closing log file failed\n"] else []) := by
  rw [openedFile_lines lines tail closeFails hlines htail] at hopen
  exact viewLogs_parse_error pal openFile filename prefixes st _ pre bad post entries hopen
    hsplit hpre hlen hbad

theorem parse_failure_fail_fast_witness :
    ∃ st1, viewLogs ansi
        (fun _ => some (openedFile (List.flatten (List.map (fun l => l ++ str "\n")
          [str "[t][Info][f][m]", str "[a][b]"]) ++ str "") false))
        (str "default.log") (str "diwef") ⟨0, 0, []⟩ = some st1 ∧
      st1.stdout = [] ++ [str "log_viewer: parsing log failed\n"] ++
        (if false = true then [str "log_viewer: closing log file failed\n"] else []) :=
  parse_failure_fail_fast ansi _ (str "default.log") (str "diwef") ⟨0, 0, []⟩
    [str "[t][Info][f][m]", str "[a][b]"] (str "") false
    [str "[t][Info][f][m]"] (str "[a][b]") [] [⟨str "t", str "Info", str "f", str "m"⟩]
    rfl (by decide) (by decide) (by decide) (by decide) (by decide) (by decide)

theorem deferredClose_eq (logFile : File) (st : State) :
    deferredClose logFile st = { st with stdout := st.stdout ++
      (if logFile.closeFails then [str "log_viewer: closing log file failed\n"] else []) } := by
  have e : str "log_viewer: " ++ str "closing log file failed" ++ newLine
      = str "log_viewer: closing log file failed\n" := by decide
  unfold deferredClose
  split
  · simp [printError, e]
  · simp

/-- C8 (amended). A line with four bracketed fields is accepted and printed: for the file
whose only line is `[2023-01-01T00:00:00][Info][main.Run][started]` and the filter `"i"`,
`viewLogs` prints exactly one formatted line, `[2023-01-01T00:00:00][` + Green(`Info`) +
`][` + Magenta(`main.Run`) + `]started` and a newline, with `Info` and `main.Run`
unpadded; the same line with the message not bracketed is rejected and
`log_viewer: parsing log failed` is printed instead. In both cases the only other
output is the line `log_viewer: closing log file failed`, printed last, exactly when
closing the file fails. -/
theorem bracketed_message_printed (pal : Palette) (filename : GoString) (st : State)
    (closeFails : Bool) :
    viewLogs pal
        (fun _ => some (openedFile
          (str "[2023-01-01T00:00:00][Info][main.Run][started]\n") closeFails))
        filename (str "i") st
      = some ⟨8, 4, st.stdout ++ [str "[" ++ str "2023-01-01T00:00:00" ++ str "][" ++
          pal.Green (str "Info") ++ str "][" ++ pal.Magenta (str "main.Run") ++ str "]" ++
          str "started" ++ str "\n"] ++
          (if closeFails then [str "log_viewer: closing log file failed\n"] else [])⟩ ∧
    viewLogs pal
        (fun _ => some (openedFile
          (str "[2023-01-01T00:00:00][Info][main.Run]started\n") closeFails))
        filename (str "i") st
      = some ⟨0, 0, st.stdout ++ [str "log_viewer: parsing log failed\n"] ++
          (if closeFails then [str "log_viewer: closing log file failed\n"] else [])⟩ := by
  have hr1 : openedFile (str "[2023-01-01T00:00:00][Info][main.Run][started]\n") closeFails
      = ⟨[str "[2023-01-01T00:00:00][Info][main.Run][started]"], closeFails⟩ := by
    have h : readLines (str "[2023-01-01T00:00:00][Info][main.Run][started]\n").length
        (str "[2023-01-01T00:00:00][Info][main.Run][started]\n")
        = [str "[2023-01-01T00:00:00][Info][main.Run][started]"] := by decide
    unfold openedFile
    rw [h]
  have hr2 : openedFile (str "[2023-01-01T00:00:00][Info][main.Run]started\n") closeFails
      = ⟨[str "[2023-01-01T00:00:00][Info][main.Run]started"], closeFails⟩ := by
    have h : readLines (str "[2023-01-01T00:00:00][Info][main.Run]started\n").length
        (str "[2023-01-01T00:00:00][Info][main.Run]started\n")
        = [str "[2023-01-01T00:00:00][Info][main.Run]started"] := by decide
    unfold openedFile
    rw [h]
  have hp1 : parseLog (str "[2023-01-01T00:00:00][Info][main.Run][started]")
      = some (.ok ⟨str "2023-01-01T00:00:00", str "Info", str "main.Run", str "started"⟩) := by
    decide
  have hp2 : parseLog (str "[2023-01-01T00:00:00][Info][main.Run]started")
      = some (.error (str "parsing log failed")) := by decide
  have hf : filterLog (str "i")
      ⟨str "2023-01-01T00:00:00", str "Info", str "main.Run", str "started"⟩ = true := by
    decide
  rw [hr1, hr2]
  constructor
  · have hv := viewLog_eq pal
      ⟨str "2023-01-01T00:00:00", str "Info", str "main.Run", str "started"⟩
      ⟨8, 4, st.stdout⟩ (show ((str "Info").length : Int) ≤ 4 by decide)
      (show ((str "main.Run").length : Int) ≤ 8 by decide)
    have e1 : ((4 : Int) - ((str "Info").length : Int)).toNat = 0 := by decide
    have e2 : ((8 : Int) - ((str "main.Run").length : Int)).toNat = 0 := by decide
    have hcol : (setPrefixColor pal
        ⟨str "2023-01-01T00:00:00", str "Info", str "main.Run", str "started"⟩).prefix_
        = pal.Green (str "Info") := by
      have ht : stringsTrimSpace (str "Info") = infoPrefix := by decide
      unfold setPrefixColor
      simp only [ht]
      rw [if_neg (by decide), if_pos trivial]
    simp only [e1, e2, List.replicate_zero, List.append_nil, hcol] at hv
    unfold viewLogs
    simp only [scanLoop, hp1, hf, if_true, updateLongestPrefixLength_eq,
      updateLongestCallerFunctionLength_eq, viewLoop, deferredClose_eq, List.nil_append]
    have e5 : max (0 : Int) ((str "Info").length : Int) = 4 := by decide
    have e6 : max (0 : Int) ((str "main.Run").length : Int) = 8 := by decide
    simp only [e5, e6, hv]
    rfl
  · unfold viewLogs
    simp only [scanLoop, hp2, deferredClose_eq, printError]
    have e8 : str "log_viewer: " ++ str "parsing log failed" ++ newLine
        = str "log_viewer: parsing log failed\n" := by decide
    simp [e8]

theorem setPrefixColor_switch (pal : Palette) (log : Log) :
    (stringsTrimSpace log.prefix_ = debugPrefix →
      setPrefixColor pal log = { log with prefix_ := pal.Cyan log.prefix_ }) ∧
    (stringsTrimSpace log.prefix_ = infoPrefix →
      setPrefixColor pal log = { log with prefix_ := pal.Green log.prefix_ }) ∧
    (stringsTrimSpace log.prefix_ = warningPrefix →
      setPrefixColor pal log = { log with prefix_ := pal.Yellow log.prefix_ }) ∧
    (stringsTrimSpace log.prefix_ = errorPrefix →
      setPrefixColor pal log = { log with prefix_ := pal.Red log.prefix_ }) ∧
    (stringsTrimSpace log.prefix_ = fatalPrefix →
      setPrefixColor pal log = { log with prefix_ := pal.Red log.prefix_ }) ∧
    (stringsTrimSpace log.prefix_ ∉
        [debugPrefix, infoPrefix, warningPrefix, errorPrefix, fatalPrefix] →
      setPrefixColor pal log = log) := by
  refine ⟨?_, ?_, ?_, ?_, ?_, ?_⟩
  · intro h
    unfold setPrefixColor
    simp only [h, if_true]
  · intro h
    unfold setPrefixColor
    simp only [h]
    rw [if_neg (by decide), if_pos trivial]
  · intro h
    unfold setPrefixColor
    simp only [h]
    rw [if_neg (by decide), if_neg (by decide), if_pos trivial]
  · intro h
    unfold setPrefixColor
    simp only [h]
    rw [if_neg (by decide), if_neg (by decide), if_neg (by decide), if_pos trivial]
  · intro h
    unfold setPrefixColor
    simp only [h]
    rw [if_neg (by decide), if_neg (by decide), if_neg (by decide), if_neg (by decide),
      if_pos trivial]
  · intro h
    simp only [List.mem_cons, List.mem_singleton, List.not_mem_nil, or_false, not_or] at h
    obtain ⟨h1, h2, h3, h4, h5⟩ := h
    unfold setPrefixColor
    simp only [h1, h2, h3, h4, h5, if_false]

/-- C13. `setPrefixColor` chooses the colour from the white-space-trimmed prefix and
wraps the whole prefix, padding included. When the prefix is a text `core` with
white-space characters before and after it (`core` itself neither beginning nor ending
with white space), the trimmed value is `core`: `Debug` gives `Cyan(prefix)`, `Info`
gives `Green(prefix)`, `Warning` gives `Yellow(prefix)`, `Error` and `Fatal` give
`Red(prefix)`, and every other `core` leaves the entry unchanged. For every entry at
all, the same six cases hold of the value of `strings.TrimSpace` on its prefix. -/
theorem setPrefixColor_cases (pal : Palette) (log : Log) (lead trail : List GoString)
    (core : GoString)
    (hlead : ∀ w ∈ lead, w ∈ spaceEncodings) (htrail : ∀ w ∈ trail, w ∈ spaceEncodings)
    (hhead : ∀ w ∈ spaceEncodings, w.head? ≠ core.head?)
    (hlast : ∀ w ∈ spaceEncodings, w.getLast? ≠ core.getLast?)
    (hpre : log.prefix_ = lead.flatten ++ core ++ trail.flatten) :
    stringsTrimSpace log.prefix_ = core ∧
    (core = debugPrefix →
      setPrefixColor pal log = { log with prefix_ := pal.Cyan log.prefix_ }) ∧
    (core = infoPrefix →
      setPrefixColor pal log = { log with prefix_ := pal.Green log.prefix_ }) ∧
    (core = warningPrefix →
      setPrefixColor pal log = { log with prefix_ := pal.Yellow log.prefix_ }) ∧
    (core = errorPrefix →
      setPrefixColor pal log = { log with prefix_ := pal.Red log.prefix_ }) ∧
    (core = fatalPrefix →
      setPrefixColor pal log = { log with prefix_ := pal.Red log.prefix_ }) ∧
    (core ∉ [debugPrefix, infoPrefix, warningPrefix, errorPrefix, fatalPrefix] →
      setPrefixColor pal log = log) ∧
    ∀ e : Log,
      (stringsTrimSpace e.prefix_ = debugPrefix →
        setPrefixColor pal e = { e with prefix_ := pal.Cyan e.prefix_ }) ∧
      (stringsTrimSpace e.prefix_ = infoPrefix →
        setPrefixColor pal e = { e with prefix_ := pal.Green e.prefix_ }) ∧
      (stringsTrimSpace e.prefix_ = warningPrefix →
        setPrefixColor pal e = { e with prefix_ := pal.Yellow e.prefix_ }) ∧
      (stringsTrimSpace e.prefix_ = errorPrefix →
        setPrefixColor pal e = { e with prefix_ := pal.Red e.prefix_ }) ∧
      (stringsTrimSpace e.prefix_ = fatalPrefix →
        setPrefixColor pal e = { e with prefix_ := pal.Red e.prefix_ }) ∧
      (stringsTrimSpace e.prefix_ ∉
          [debugPrefix, infoPrefix, warningPrefix, errorPrefix, fatalPrefix] →
        setPrefixColor pal e = e) := by
  have ht : stringsTrimSpace log.prefix_ = core := by
    rw [hpre]
    exact stringsTrimSpace_core lead trail core hlead htrail hhead hlast
  obtain ⟨c1, c2, c3, c4, c5, c6⟩ := setPrefixColor_switch pal log
  rw [ht] at c1 c2 c3 c4 c5 c6
  exact ⟨ht, c1, c2, c3, c4, c5, c6, setPrefixColor_switch pal⟩

theorem setPrefixColor_cases_witness :
    stringsTrimSpace (str " \tDebug\u00a0 ") = debugPrefix ∧
    setPrefixColor ansi ⟨str "t", str " \tDebug\u00a0 ", str "f", str "m"⟩
      = ⟨str "t", ansi.Cyan (str " \tDebug\u00a0 "), str "f", str "m"⟩ ∧
    setPrefixColor ansi ⟨str "t", str "\n x Debug\r", str "f", str "m"⟩
      = ⟨str "t", str "\n x Debug\r", str "f", str "m"⟩ :=
  ⟨(setPrefixColor_cases ansi ⟨str "t", str " \tDebug\u00a0 ", str "f", str "m"⟩
      [str " ", str "\t"] [str "\u00a0", str " "] debugPrefix
      (by decide) (by decide) (by decide) (by decide) (by decide)).1,
   (setPrefixColor_cases ansi ⟨str "t", str " \tDebug\u00a0 ", str "f", str "m"⟩
      [str " ", str "\t"] [str "\u00a0", str " "] debugPrefix
      (by decide) (by decide) (by decide) (by decide) (by decide)).2.1 rfl,
   (setPrefixColor_cases ansi ⟨str "t", str "\n x Debug\r", str "f", str "m"⟩
      [str "\n", str " "] [str "\r"] (str "x Debug")
      (by decide) (by decide) (by decide) (by decide) (by decide)).2.2.2.2.2.2.1
      (by decide)⟩

/-! ## A line longer than the buffer of the reader -/

theorem readLine_full (piece rest : GoString) (hlen : piece.length = defaultBufSize)
    (hnl : (10 : UInt8) ∉ piece) (hcr : piece.getLast? ≠ some 13) :
    readLine (piece ++ rest) = some (piece, rest) := by
  have hne : piece ++ rest ≠ [] := by
    intro h
    have := congrArg List.length h
    simp [hlen, defaultBufSize] at this
  have htake : List.take defaultBufSize (piece ++ rest) = piece := by
    rw [← hlen]
    exact List.take_left' rfl
  unfold readLine
  rw [if_neg hne]
  simp only [htake, takeWhile_no_newline piece hnl]
  rw [if_neg (by omega), if_pos (by simp only [List.length_append]; omega), if_neg hcr]
  simp

theorem not_substring_replicate (n : Nat) : ¬ str "][" <:+: List.replicate n (97 : UInt8) := by
  intro h
  have h1 : (93 : UInt8) ∈ List.replicate n (97 : UInt8) :=
    h.subset (by rw [str_sep]; simp)
  have h2 := List.eq_of_mem_replicate h1
  exact absurd h2 (by decide)

theorem long_line_pieces (msg : GoString) (hmsg : msg.length = 4081)
    (hmsgnl : (10 : UInt8) ∉ msg) (hmsgsep : ¬ str "][" <:+: msg) :
    (10 : UInt8) ∉ str "[t1][Info][c][" ++ msg ++
      str "X[t2][Error][dd][tail]" ∧
    (openedFile (str "[t1][Info][c][" ++ msg ++
        str "X[t2][Error][dd][tail]") false).lines
      = [str "[t1][Info][c][" ++ msg ++ str "X",
          str "[t2][Error][dd][tail]"] ∧
    parseLog (str "[t1][Info][c][" ++ msg ++ str "X")
      = some (.ok ⟨str "t1", str "Info", str "c", msg⟩) ∧
    parseLog (str "[t2][Error][dd][tail]")
      = some (.ok ⟨str "t2", str "Error", str "dd", str "tail"⟩) ∧
    ∃ st1 o1 o2, viewLogs ansi (fun _ => some (openedFile (str "[t1][Info][c][" ++
        msg ++ str "X[t2][Error][dd][tail]") false))
        (str "default.log") (str "diwef") ⟨0, 0, []⟩ = some st1 ∧
      st1.stdout = [o1, o2] ∧
      viewLog ansi ⟨str "t1", str "Info", str "c", msg⟩
        { st1 with stdout := [] } = some { st1 with stdout := [o1] } ∧
      viewLog ansi ⟨str "t2", str "Error", str "dd", str "tail"⟩
        { st1 with stdout := [] } = some { st1 with stdout := [o2] } := by
  have e1 : str "[t1][Info][c][" = [91, 116, 49, 93, 91, 73, 110, 102, 111, 93, 91, 99, 93, 91] := by
    decide
  have e2 : str "X[t2][Error][dd][tail]" = str "X" ++ str "[t2][Error][dd][tail]" := by decide
  have eX : str "X" = [88] := by decide
  have hmem : (10 : UInt8) ∉ str "[t1][Info][c][" ++ msg ++
      str "X[t2][Error][dd][tail]" := by
    have h3 : (10 : UInt8) ∉ str "X[t2][Error][dd][tail]" := by decide
    have h1 : (10 : UInt8) ∉ str "[t1][Info][c][" := by decide
    intro h
    rcases List.mem_append.mp h with h | h
    · rcases List.mem_append.mp h with h | h
      · exact h1 h
      · exact hmsgnl h
    · exact h3 h
  have hp2 : parseLog (str "[t2][Error][dd][tail]")
      = some (.ok ⟨str "t2", str "Error", str "dd", str "tail"⟩) := by decide
  have hp1 : parseLog (str "[t1][Info][c][" ++ msg ++ str "X")
      = some (.ok ⟨str "t1", str "Info", str "c", msg⟩) := by
    have hshape : str "[t1][Info][c][" ++ msg ++ str "X"
        = 91 :: (str "t1" ++ str "][" ++ str "Info" ++ str "][" ++ str "c" ++ str "][" ++
          msg) ++ [88] := by
      have e3 : str "[t1][Info][c][" = 91 :: (str "t1" ++ str "][" ++ str "Info" ++ str "][" ++
          str "c" ++ str "][") := by decide
      rw [e3, eX]
      simp
    apply parseLog_of_split
    · rw [hshape]; simp [hmsg]; omega
    · rw [hshape]
      simp only [List.cons_append, List.drop_succ_cons, List.drop_zero, List.dropLast_concat]
      exact stringsSplit_four (str "t1") (str "Info") (str "c") (msg)
        (by decide) (by decide) (by decide)
        (not_contains_of_not_substring hmsgsep)
  have hlines : (openedFile (str "[t1][Info][c][" ++ msg ++
      str "X[t2][Error][dd][tail]") false).lines
      = [str "[t1][Info][c][" ++ msg ++ str "X",
          str "[t2][Error][dd][tail]"] := by
    have hlen : (str "[t1][Info][c][" ++ msg ++
        str "X[t2][Error][dd][tail]").length = 4115 + 2 := by
      rw [e1]
      have : (str "X[t2][Error][dd][tail]").length = 22 := by decide
      simp [this, hmsg]
    have hsplit : str "[t1][Info][c][" ++ msg ++ str "X[t2][Error][dd][tail]"
        = (str "[t1][Info][c][" ++ msg ++ str "X") ++
          str "[t2][Error][dd][tail]" := by
      rw [e2]
      simp only [List.append_assoc]
    have hfull : readLine ((str "[t1][Info][c][" ++ msg ++ str "X") ++
        str "[t2][Error][dd][tail]")
        = some (str "[t1][Info][c][" ++ msg ++ str "X",
          str "[t2][Error][dd][tail]") := by
      apply readLine_full
      · rw [e1, eX]; simp [defaultBufSize, hmsg]
      · intro h
        apply hmem
        rw [hsplit]
        exact List.mem_append_left _ h
      · rw [eX]
        simp
    have hrest : readLine (str "[t2][Error][dd][tail]")
        = some (str "[t2][Error][dd][tail]", []) :=
      readLine_tail _ (by decide) (by decide) (by decide)
    show readLines _ _ = _
    rw [hlen, hsplit]
    simp only [readLines, hfull, hrest, readLine_nil]
  refine ⟨hmem, hlines, hp1, hp2, ?_⟩
  obtain ⟨st1, outs, h1, h2, _, h4⟩ := viewLogs_all_parse ansi
    (fun _ => some (openedFile (str "[t1][Info][c][" ++ msg ++
      str "X[t2][Error][dd][tail]") false)) (str "default.log") (str "diwef") ⟨0, 0, []⟩ _
    [⟨str "t1", str "Info", str "c", msg⟩,
      ⟨str "t2", str "Error", str "dd", str "tail"⟩] rfl
    (by rw [hlines]; simp only [List.map_cons, List.map_nil, hp1, hp2])
  have hf1 : filterLog (str "diwef") ⟨str "t1", str "Info", str "c", msg⟩
      = true := by
    rw [filterLog_iff]
    exact Or.inr (Or.inl ⟨rfl, by rw [← stringsContains_iff_substring]; decide⟩)
  have hf2 : filterLog (str "diwef") ⟨str "t2", str "Error", str "dd", str "tail"⟩ = true := by
    decide
  simp only [List.filter_cons_of_pos hf1, List.filter_cons_of_pos hf2, List.filter_nil] at h4
  cases h4 with
  | cons ha hb =>
    cases hb with
    | cons hc hd =>
      cases hd
      refine ⟨st1, _, _, h1, ?_, ha, hc⟩
      simpa [openedFile] using h2

/-- A file whose single line, of 4117 bytes, has 7 segments: the reader returns it in two
pieces, each of which parses, and the run prints two formatted entries and no parse
error. -/
theorem long_line_read_in_pieces :
    (10 : UInt8) ∉ str "[t1][Info][c][" ++ List.replicate 4081 97 ++
      str "X[t2][Error][dd][tail]" ∧
    (openedFile (str "[t1][Info][c][" ++ List.replicate 4081 97 ++
        str "X[t2][Error][dd][tail]") false).lines
      = [str "[t1][Info][c][" ++ List.replicate 4081 97 ++ str "X",
          str "[t2][Error][dd][tail]"] ∧
    parseLog (str "[t1][Info][c][" ++ List.replicate 4081 97 ++ str "X")
      = some (.ok ⟨str "t1", str "Info", str "c", List.replicate 4081 97⟩) ∧
    parseLog (str "[t2][Error][dd][tail]")
      = some (.ok ⟨str "t2", str "Error", str "dd", str "tail"⟩) ∧
    ∃ st1 o1 o2, viewLogs ansi (fun _ => some (openedFile (str "[t1][Info][c][" ++
        List.replicate 4081 97 ++ str "X[t2][Error][dd][tail]") false))
        (str "default.log") (str "diwef") ⟨0, 0, []⟩ = some st1 ∧
      st1.stdout = [o1, o2] ∧
      viewLog ansi ⟨str "t1", str "Info", str "c", List.replicate 4081 97⟩
        { st1 with stdout := [] } = some { st1 with stdout := [o1] } ∧
      viewLog ansi ⟨str "t2", str "Error", str "dd", str "tail"⟩
        { st1 with stdout := [] } = some { st1 with stdout := [o2] } :=
  long_line_pieces (List.replicate 4081 97) (List.length_replicate _ _)
    (fun h => absurd (List.eq_of_mem_replicate h) (by decide)) (not_substring_replicate 4081)

end LogViewer
